import Mathlib

/-!
# Verification of the DocAgent resilient inference-and-pipeline core

Shallow embedding of the Python backend of DocAgent:

* `backend/services/mermaid_utils.py` — diagram cleaning, validation, repair;
* `backend/agents/base.py` — the multi-backend inference client
  (`BytezAgent.generate`, `_call_bytez`, `_call_ollama`, `_mock_response`);
* `backend/agents/reader.py` and `backend/agents/diagram.py` — the Reader
  and Diagram agents' parsing and fallback logic;
* `backend/routes/repo_docs.py` — the repo-job orchestration loop and the
  50-file cap of `start_repo_documentation`.

Python strings are modelled as `List Char`.  Python's `str.strip`,
`str.split`, `str.replace`, `str.count`, `str.startswith` and the few
regular expressions the source uses are given explicit executable
definitions.  External collaborators are oracles: the HTTP exchanges of
the two inference backends are scripts of responses, `json.loads` is a
parameter of type `String → Option JVal`, and the per-agent work of the
orchestrator (`orchestrator.run_agent`) is a function from file index and
agent name to an outcome.  `\s` of the Python regexes and `str.strip` are
modelled over Python's six ASCII whitespace characters, and `str.lower`
over ASCII case (the only characters the checked code paths inspect).
-/

set_option maxRecDepth 100000
set_option linter.unusedVariables false

namespace DocAgent

/-- The characters Python's default `str.strip` and the regex class `\s`
treat as whitespace (ASCII fragment). -/
def isPySpace (c : Char) : Bool :=
  c = ' ' || c = '\t' || c = '\n' || c = '\r' || c = '\x0b' || c = '\x0c'

/-- Python `str.lstrip()` on a character list. -/
def lstripL (l : List Char) : List Char := l.dropWhile isPySpace

/-- Python `str.rstrip()` on a character list. -/
def rstripL (l : List Char) : List Char := (l.reverse.dropWhile isPySpace).reverse

/-- Python `str.strip()` on a character list. -/
def stripL (l : List Char) : List Char := rstripL (lstripL l)

/-- Python `str.split(sep)` for a one-character separator: every
occurrence of `c` separates two (possibly empty) pieces.  Never returns
the empty list. -/
def splitCh (c : Char) : List Char → List (List Char)
  | [] => [[]]
  | a :: as =>
    match splitCh c as with
    | [] => [[]]
    | h :: t => if a = c then [] :: h :: t else (a :: h) :: t

/-- Python `"\n".join(pieces)`. -/
def joinNL : List (List Char) → List Char
  | [] => []
  | [a] => a
  | a :: b :: t => a ++ '\n' :: joinNL (b :: t)

/-- Python `sub in s` (substring containment). -/
def hasSubL (pat : List Char) : List Char → Bool
  | [] => pat.isPrefixOf []
  | a :: as => pat.isPrefixOf (a :: as) || hasSubL pat as

/-- `sub in s` on `String`s. -/
def hasSubS (pat s : String) : Bool := hasSubL pat.toList s.toList

/-- ASCII `str.lower()`. -/
def lowerL (l : List Char) : List Char := l.map Char.toLower

/-- Python `str.strip()` on a `String`. -/
def pyStripS (s : String) : String := String.mk (stripL s.toList)

end DocAgent

namespace DocAgent

/-! ## `backend/services/mermaid_utils.py` -/

/-- `MERMAID_KEYWORDS` — the recognised first-line diagram keywords
(a Python `set`; only membership-`any` is ever used, so order is
irrelevant). -/
def MERMAID_KEYWORDS : List (List Char) :=
  ["graph".toList, "flowchart".toList, "sequencediagram".toList,
   "classdiagram".toList, "statediagram".toList, "statediagram-v2".toList,
   "erdiagram".toList, "gantt".toList, "pie".toList, "gitgraph".toList,
   "mindmap".toList, "timeline".toList, "journey".toList]

/-- `any(first_line.startswith(kw) for kw in MERMAID_KEYWORDS)`. -/
def keywordFound (firstLine : List Char) : Bool :=
  MERMAID_KEYWORDS.any (fun kw => kw.isPrefixOf firstLine)

/-- Step 1 of `clean_mermaid_code`: `re.sub(r"^```(?:mermaid)?\s*\n?", "", code)`.
The pattern is anchored at the start; after the fence and the optional
`mermaid` tag the greedy `\s*` absorbs all following whitespace. -/
def leadFence (l : List Char) : List Char :=
  if "```".toList.isPrefixOf l then
    let r := l.drop 3
    let r2 := if "mermaid".toList.isPrefixOf r then r.drop 7 else r
    r2.dropWhile isPySpace
  else l

/-- Whether `\n?```\s*$` matches here ignoring the optional newline:
a fence whose tail is pure whitespace. -/
def trailMatchAt (l : List Char) : Bool :=
  "```".toList.isPrefixOf l && (l.drop 3).all isPySpace

/-- Step 1 of `clean_mermaid_code`, closing side:
`re.sub(r"\n?```\s*$", "", code)` — cut at the leftmost position where an
optional newline, a fence and a whitespace-only tail reach the end. -/
def cutTrailingFence : List Char → List Char
  | [] => []
  | a :: as =>
    if trailMatchAt (a :: as) then []
    else if a = '\n' && trailMatchAt as then []
    else a :: cutTrailingFence as

/-- Python `str.replace(old, new)`: replace every non-overlapping
occurrence, scanning left to right.  The scan consumes at least one
character per step, so a fuel of the input length is enough; fuel-style
recursion keeps the definition kernel-computable. -/
def pyReplaceGo (old new : List Char) : Nat → List Char → List Char
  | _, [] => []
  | 0, l => l
  | fuel + 1, a :: as =>
    if old.isPrefixOf (a :: as) ∧ old ≠ [] then
      new ++ pyReplaceGo old new fuel ((a :: as).drop old.length)
    else
      a :: pyReplaceGo old new fuel as

def pyReplace (old new l : List Char) : List Char :=
  pyReplaceGo old new l.length l

def isHexDigit (c : Char) : Bool :=
  c.isDigit || ('a' ≤ c && c ≤ 'f') || ('A' ≤ c && c ≤ 'F')

def hexVal (c : Char) : Nat :=
  if c.isDigit then c.toNat - '0'.toNat
  else if 'a' ≤ c then c.toNat - 'a'.toNat + 10
  else c.toNat - 'A'.toNat + 10

/-- Does a `\uXXXX` escape start here?  If so, return the decoded
character and the remainder. -/
def uniHead (l : List Char) : Option (Char × List Char) :=
  match l with
  | b :: 'u' :: h1 :: h2 :: h3 :: h4 :: rest =>
    if b = '\\' ∧ (isHexDigit h1 && isHexDigit h2 && isHexDigit h3 && isHexDigit h4) then
      some (Char.ofNat (hexVal h1 * 4096 + hexVal h2 * 256 + hexVal h3 * 16 + hexVal h4),
        rest)
    else none
  | _ => none

/-- Step 4 of `clean_mermaid_code`:
`re.sub(r"\\u([0-9a-fA-F]{4})", lambda m: chr(int(m.group(1), 16)), code)` —
scan left to right, decoding each escape and otherwise advancing one
character.  (`Char.ofNat` differs from Python `chr` only on surrogate
code points, which no checked path produces.) -/
def unicodeSubGo : Nat → List Char → List Char
  | _, [] => []
  | 0, l => l
  | fuel + 1, a :: as =>
    match uniHead (a :: as) with
    | some (ch, rest) => ch :: unicodeSubGo fuel rest
    | none => a :: unicodeSubGo fuel as

def unicodeSub (l : List Char) : List Char := unicodeSubGo l.length l

/-- Step 6 of `clean_mermaid_code`, middle part:
`"\n".join(line.rstrip() for line in code.split("\n"))`. -/
def rstripLines (l : List Char) : List Char :=
  joinNL ((splitCh '\n' l).map rstripL)

/-- `clean_mermaid_code` (mermaid_utils.py:16-56): fence removal,
double- then single-escape decoding, unicode escapes, BOM strip,
line-ending normalisation, per-line rstrip and final strip. -/
def clean_mermaid_code (raw : List Char) : List Char :=
  if raw = [] then [] else
  let c1 := cutTrailingFence (leadFence raw)
  let c2 := pyReplace "\\\\n".toList "\n".toList c1
  let c3 := pyReplace "\\\\t".toList "  ".toList c2
  let c4 := pyReplace "\\\\\"".toList "\"".toList c3
  let c5 := pyReplace "\\n".toList "\n".toList c4
  let c6 := pyReplace "\\t".toList "  ".toList c5
  let c7 := pyReplace "\\\"".toList "\"".toList c6
  let c8 := unicodeSub c7
  let c9 := c8.dropWhile (· = '\uFEFF')
  let c10 := pyReplace "\r\n".toList "\n".toList c9
  let c11 := pyReplace "\r".toList "\n".toList c10
  stripL (rstripLines c11)

/-- The error message for an unrecognised first line. -/
def unrecognizedMsg (firstLineStripped : List Char) : List Char :=
  "Unrecognized diagram type in first line: \x27".toList ++
    firstLineStripped ++ "\x27".toList

/-- The error message for an unbalanced bracket pair. -/
def unbalancedMsg (name : String) (o c : Char) (no nc : Nat) : List Char :=
  ("Unbalanced " ++ name ++ ": " ++ toString no ++ " \x27").toList ++ [o] ++
    ("\x27 vs " ++ toString nc ++ " \x27").toList ++ [c] ++ "\x27".toList

/-- `validate_mermaid_syntax` (mermaid_utils.py:59-81): returns
`(is_valid, error_message)`.  Fails on empty code, on a first line that
starts with no recognised keyword, and on unbalanced `()`, `[]`, `{}`. -/
def validate_mermaid_syntax (code : List Char) : Bool × List Char :=
  if stripL code = [] then (false, "Empty diagram code".toList) else
  let lines := splitCh '\n' (stripL code)
  let firstLine := lowerL (stripL (lines.headD []))
  if ¬ keywordFound firstLine then
    (false, unrecognizedMsg (stripL (lines.headD [])))
  else if code.count '(' ≠ code.count ')' then
    (false, unbalancedMsg "parentheses" '(' ')' (code.count '(') (code.count ')'))
  else if code.count '[' ≠ code.count ']' then
    (false, unbalancedMsg "square brackets" '[' ']' (code.count '[') (code.count ']'))
  else if code.count '\x7b' ≠ code.count '\x7d' then
    (false, unbalancedMsg "braces" '\x7b' '\x7d' (code.count '\x7b') (code.count '\x7d'))
  else (true, [])

/-- Repair 2 of `attempt_mermaid_repair`: while the counts of one bracket
pair over the joined lines differ and more than one line remains, drop
the last line. -/
def popUnbalancedGo (o c : Char) : Nat → List (List Char) → List (List Char)
  | 0, lines => lines
  | fuel + 1, lines =>
    if (joinNL lines).count o ≠ (joinNL lines).count c ∧ 1 < lines.length then
      popUnbalancedGo o c fuel lines.dropLast
    else lines

def popUnbalanced (o c : Char) (lines : List (List Char)) : List (List Char) :=
  popUnbalancedGo o c lines.length lines

/-- Repair 3's test: after `rstrip`, the line ends in `-->`, `->>` or `->`
(the regexes `-->\s*$` and `->>?\s*$`). -/
def danglingArrow (line : List Char) : Bool :=
  let s := rstripL line
  "-->".toList.isSuffixOf s || "->>".toList.isSuffixOf s || "->".toList.isSuffixOf s

/-- `attempt_mermaid_repair` (mermaid_utils.py:84-116): prepend
`flowchart TD` when the first line has no keyword, pop trailing lines
while a bracket pair is unbalanced, drop lines ending in a dangling
arrow, and return the stripped rejoin.  The `error_msg` argument is
unused, as in the source. -/
def attempt_mermaid_repair (code : List Char) (error_msg : List Char) : List Char :=
  if code = [] then code else
  let lines0 := splitCh '\n' (stripL code)
  let firstLine := lowerL (stripL (lines0.headD []))
  let lines1 := if ¬ keywordFound firstLine then "flowchart TD".toList :: lines0 else lines0
  let lines2 := popUnbalanced '\x7b' '\x7d' (popUnbalanced '[' ']' (popUnbalanced '(' ')' lines1))
  let lines3 := (splitCh '\n' (joinNL lines2)).filter (fun l => !(danglingArrow l))
  stripL (joinNL lines3)

/-! ## `backend/agents/base.py` — the multi-backend inference client

The HTTP layer (`httpx`) is abstracted: the cloud host's behaviour is a
script assigning each attempt number a `CloudEvent`, and the local Ollama
host is an `OllamaEnv` describing its liveness probe and chat call.  A
message dict `{"role": .., "content": ..}` is a `Msg` record. -/

structure Msg where
  role : String
  content : String
deriving DecidableEq

/-- `_CHAT_MODEL_KEYWORDS` (base.py:11). -/
def _CHAT_MODEL_KEYWORDS : List String :=
  ["instruct", "chat", "llama", "qwen", "mistral", "gemma", "phi", "deepseek"]

/-- ASCII `str.lower()` on a `String`. -/
def lowerS (s : String) : String := String.mk (lowerL s.toList)

/-- `_is_chat_model` (base.py:14-17). -/
def _is_chat_model (model_id : String) : Bool :=
  _CHAT_MODEL_KEYWORDS.any (fun kw => hasSubS kw (lowerS model_id))

/-- Python `sep.join(parts)`. -/
def joinSep (sep : String) : List String → String
  | [] => ""
  | [a] => a
  | a :: b :: t => a ++ sep ++ joinSep sep (b :: t)

/-- The request body `_call_bytez` builds (base.py:61-75): chat models
get the message array, text-to-text models a single concatenated prompt
with system messages prefixed by `Instructions: `. -/
inductive ReqBody where
  | chatBody (messages : List Msg)
  | textBody (prompt : String)
deriving DecidableEq

def bytezRequestBody (model_id : String) (messages : List Msg) : ReqBody :=
  if _is_chat_model model_id then .chatBody messages
  else .textBody (joinSep "\n\n" (messages.map (fun m =>
    if m.role = "system" then "Instructions: " ++ m.content else m.content)))

/-- The shape of the `output` field of a 200 response from Bytez:
a dict (with its `content` entry, `""` when missing), a string, or
anything else. -/
inductive BytezOutput where
  | objContent (content : String)
  | strOut (s : String)
  | otherOut
deriving DecidableEq

/-- One attempt's outcome on the cloud path: an HTTP response with a
status code (payload fields are only read on 200), a timeout, or any
other transport exception. -/
inductive CloudEvent where
  | resp (status : Nat) (errorField : Option String) (output : BytezOutput)
  | timeout
  | exc
deriving DecidableEq

/-- The 200-branch of `_call_bytez` (base.py:96-111): return the dict's
`content` if truthy, or a string output if its strip is truthy; anything
else falls through. -/
def extract200 (errorField : Option String) (output : BytezOutput) : Option String :=
  match errorField with
  | none =>
    match output with
    | .objContent content => if content ≠ "" then some content else none
    | .strOut s => if pyStripS s ≠ "" then some s else none
    | .otherOut => none
  | some _ => none

/-- What one attempt yields when it is not rate-limited: `some` content
from a successful 200, otherwise `none` (non-200 status, 200 with an
error field or unusable output, timeout, exception). -/
def evResult (ev : CloudEvent) : Option String :=
  match ev with
  | .resp status errorField output =>
    if status = 200 then extract200 errorField output else none
  | .timeout => none
  | .exc => none

/-- `response.status_code == 429`. -/
def isRate (ev : CloudEvent) : Bool :=
  match ev with
  | .resp status _ _ => status = 429
  | _ => false

def max_retries : Nat := 2

/-- The `for attempt in range(max_retries + 1)` loop of `_call_bytez`
(base.py:54-124).  On 429: wait `5 * (attempt + 1)` seconds and retry
while `attempt < max_retries`, else give up.  On a successful 200:
return the content.  On any other failure: `if attempt == 0: break`
(give up), otherwise fall through to the next loop iteration.  The
second component collects the sleeps performed. -/
def bytezGo (script : Nat → CloudEvent) : List Nat → List Nat → Option String × List Nat
  | [], waits => (none, waits)
  | attempt :: rest, waits =>
    let ev := script attempt
    if isRate ev then
      if attempt < max_retries then bytezGo script rest (waits ++ [5 * (attempt + 1)])
      else (none, waits)
    else
      match evResult ev with
      | some content => (some content, waits)
      | none => if attempt = 0 then (none, waits) else bytezGo script rest waits

/-- `_call_bytez` (base.py:51-124), returning the result and the list of
rate-limit sleeps (in seconds, in order). -/
def _call_bytez (script : Nat → CloudEvent) : Option String × List Nat :=
  bytezGo script (List.range (max_retries + 1)) []

/-- The Ollama side (base.py:130-180): the `/api/tags` probe either
fails (`none`) or lists the installed model names; the `/api/chat` call
either fails or returns `message.content`. -/
structure OllamaEnv where
  tags : Option (List String)
  chat : Option String
deriving DecidableEq

/-- The Bytez-id → Ollama-name table of `_resolve_ollama_model`
(base.py:182-199), in source (insertion) order. -/
def ollamaMappings : List (String × String) :=
  [("qwen", "qwen2.5-coder:7b"), ("llama", "llama3.2:3b"),
   ("starcoder", "qwen2.5-coder:7b"), ("codellama", "codellama:7b"),
   ("deepseek", "deepseek-coder:6.7b"), ("mistral", "mistral:7b"),
   ("phi", "phi3:mini"), ("gemma", "gemma2:2b")]

/-- `_resolve_ollama_model`: first table key contained in the lowered
model id wins; default `llama3.2:3b`. -/
def _resolve_ollama_model (model_id : String) : String :=
  let mid := lowerS model_id
  match ollamaMappings.find? (fun p => hasSubS p.1 mid) with
  | some p => p.2
  | none => "llama3.2:3b"

/-- `_call_ollama` (base.py:130-180): resolve the model name, probe
`/api/tags`, check the model is installed (exact or substring match),
then issue the chat call and return its content if truthy. -/
def _call_ollama (env : OllamaEnv) (model_id : String) : Option String :=
  let ollama_model := _resolve_ollama_model model_id
  if ollama_model = "" then none
  else
    match env.tags with
    | none => none
    | some installed =>
      if installed.contains ollama_model ||
          installed.any (fun name => hasSubS ollama_model name) then
        match env.chat with
        | some content => if content ≠ "" then some content else none
        | none => none
      else none

/-! ### `_mock_response` (base.py:205-247)

The five branch bodies are the exact `json.dumps` outputs of the dict
literals in the source (Python preserves insertion order and separates
with `", "` / `": "`). -/

def mockAnalyzeJson : String :=
  "\x7b\"complexity\": \x7b\"cyclomatic\": 5, \"cognitive\": 3\x7d, \"dependencies\": \x7b\"internal\": [], \"external\": [\"json\", \"typing\"]\x7d, \"architecture_type\": \"function\", \"documentation_needs\": [\"docstring\", \"parameters\", \"return_value\", \"examples\"]\x7d"

def mockContextJson : String :=
  "\x7b\"patterns\": [\"factory pattern\", \"dependency injection\"], \"best_practices\": [\"Use type hints\", \"Add comprehensive docstrings\", \"Include examples\"], \"concepts\": [\"encapsulation\", \"modularity\"], \"examples\": [\"# Example usage included\"]\x7d"

def mockWriteJson : String :=
  "\x7b\"docstring\": \"\\\"\\\"\\\"\\\\nAuto-generated documentation for code component.\\\\n\\\\nThis function/class provides functionality as defined in the source code.\\\\n\\\\nArgs:\\\\n    param1: First parameter description\\\\n    param2: Second parameter description\\\\n\\\\nReturns:\\\\n    Result of the operation\\\\n\\\\nExample:\\\\n    >>> result = function_name(arg1, arg2)\\\\n\\\"\\\"\\\"\", \"markdown\": \"# Component Documentation\\\\n\\\\n## Overview\\\\n\\\\nThis component is part of the codebase and provides specific functionality.\\\\n\\\\n## Parameters\\\\n\\\\n| Name | Type | Description |\\\\n|------|------|-------------|\\\\n| param1 | Any | First parameter |\\\\n| param2 | Any | Second parameter |\\\\n\\\\n## Returns\\\\n\\\\nReturns the result of the operation.\\\\n\\\\n## Example\\\\n\\\\n```python\\\\nresult = function_name(arg1, arg2)\\\\nprint(result)\\\\n```\", \"examples\": [\"result = function_name(arg1, arg2)\", \"output = process_data(input)\"]\x7d"

def mockVerifyJson : String :=
  "\x7b\"approved\": true, \"quality_score\": 87.5, \"evaluation\": \x7b\"accuracy\": 90, \"completeness\": 85, \"clarity\": 88, \"examples\": 87\x7d, \"feedback\": [\"Documentation is comprehensive\", \"Consider adding more edge cases in examples\"]\x7d"

def mockDiagramJson : String :=
  "\x7b\"diagram_type\": \"flowchart\", \"mermaid_code\": \"flowchart TD\\\\n    A[Start] --> B\x7bValidate Input\x7d\\\\n    B -->|Valid| C[Process Data]\\\\n    B -->|Invalid| D[Return Error]\\\\n    C --> E[Transform Result]\\\\n    E --> F[Return Output]\\\\n    D --> F\\\\n    F --> G[End]\", \"description\": \"Flowchart showing the main execution flow\"\x7d"

/-- The keyword dispatch of `_mock_response` over a user-message content
(the `elif` chain, base.py:213-247). -/
def mockFor (user_content : String) : String :=
  let lc := lowerS user_content
  if hasSubS "analyze" lc || hasSubS "code" lc then mockAnalyzeJson
  else if hasSubS "context" lc || hasSubS "patterns" lc then mockContextJson
  else if hasSubS "documentation" lc || hasSubS "write" lc then mockWriteJson
  else if hasSubS "verify" lc || hasSubS "quality" lc then mockVerifyJson
  else if hasSubS "diagram" lc || hasSubS "mermaid" lc then mockDiagramJson
  else "Generated content"

/-- base.py:207-211: the loop takes the content of the FIRST message
whose role is `user` (it `break`s at the first hit), `""` if none. -/
def firstUserContent (messages : List Msg) : String :=
  match messages.find? (fun m => m.role == "user") with
  | some m => m.content
  | none => ""

/-- `_mock_response` (base.py:205-247). -/
def _mock_response (messages : List Msg) : String :=
  mockFor (firstUserContent messages)

/-- `BytezAgent.generate` (base.py:32-49): Bytez cloud (only when an API
key is configured) → Ollama local → mock.  `temperature` and
`max_tokens` only shape the request bodies, which the script oracle
abstracts. -/
def generate (api_key : Bool) (cloud : Nat → CloudEvent) (ollama : OllamaEnv)
    (model_id : String) (messages : List Msg) : String :=
  match (if api_key then (_call_bytez cloud).1 else none) with
  | some result => result
  | none =>
    match _call_ollama ollama model_id with
    | some result => result
    | none => _mock_response messages

/-- Modelled from the spec (§4.1 step 4): the spec says the mock is
synthesized from the LAST user message's content; this definition
follows the spec's words, to be compared with `_mock_response`. -/
def mockSpecLastUser (messages : List Msg) : String :=
  mockFor (match (messages.filter (fun m => m.role == "user")).getLast? with
           | some m => m.content
           | none => "")

/-! ## JSON values and the Reader agent (`backend/agents/reader.py`)

`json.loads` is a Python-stdlib external; it is modelled as an oracle
`jloads : List Char → Option JVal` (`none` = the call raises). -/

/-- A JSON-compatible Python value.  `null` doubles as Python `None`. -/
inductive JVal where
  | null
  | boolV (b : Bool)
  | num (n : Int)
  | str (s : String)
  | arr (xs : List JVal)
  | obj (fields : List (String × JVal))

/-- Python truthiness of a JSON-compatible value. -/
def jTruthy : JVal → Bool
  | .null => false
  | .boolV b => b
  | .num n => n ≠ 0
  | .str s => s ≠ ""
  | .arr xs => ¬ xs.isEmpty
  | .obj fs => ¬ fs.isEmpty

/-- `d.get(k)` on an object's field list (`none` = Python `None`). -/
def lookupJ (fields : List (String × JVal)) (k : String) : Option JVal :=
  (fields.find? (fun p => p.1 == k)).map (·.2)

/-- Field access on a JSON value (`none` when absent or not an object). -/
def jGet (v : JVal) (k : String) : Option JVal :=
  match v with
  | .obj fields => lookupJ fields k
  | _ => none

/-- Python `str.split(sep)` for a non-empty multi-character separator
(non-overlapping, left to right).  Fuel-style for kernel computability. -/
def splitSubGo (sep : List Char) : Nat → List Char → List (List Char)
  | _, [] => [[]]
  | 0, l => [l]
  | fuel + 1, a :: as =>
    if sep.isPrefixOf (a :: as) ∧ sep ≠ [] then
      [] :: splitSubGo sep fuel ((a :: as).drop sep.length)
    else
      match splitSubGo sep fuel as with
      | [] => [[a]]
      | h :: t => (a :: h) :: t

def splitSub (sep l : List Char) : List (List Char) :=
  splitSubGo sep l.length l

/-- The parsing-preparation step of `ReaderAgent.analyze`
(reader.py:33-39): strip, then cut out the interior of the first
` ```json ` or ` ``` ` fence when one is present. -/
def reader_extract (response : List Char) : List Char :=
  let clean := stripL response
  if hasSubL "```json".toList clean then
    stripL ((splitSub "```".toList ((splitSub "```json".toList clean).getD 1 [])).getD 0 [])
  else if hasSubL "```".toList clean then
    stripL ((splitSub "```".toList ((splitSub "```".toList clean).getD 1 [])).getD 0 [])
  else clean

/-- The fixed default record of `ReaderAgent.analyze` (reader.py:42-47). -/
def reader_default : JVal :=
  .obj [("complexity", .obj [("cyclomatic", .num 5), ("cognitive", .num 3)]),
        ("dependencies", .obj [("internal", .arr []), ("external", .arr [])]),
        ("architecture_type", .str "function"),
        ("documentation_needs",
          .arr [.str "docstring", .str "parameters", .str "return_value", .str "examples"])]

/-- `ReaderAgent.analyze` (reader.py:15-47) downstream of the model
response: parse the extracted text; any parse failure degrades to the
default record (the `except Exception` branch). -/
def reader_analyze (jloads : List Char → Option JVal) (response : List Char) : JVal :=
  match jloads (reader_extract response) with
  | some v => v
  | none => reader_default

/-! ## The Diagram agent (`backend/agents/diagram.py`) -/

/-- The text before the first ` ``` ` occurrence, `none` when there is
none (the closing-fence search of the strategy-2 regexes). -/
def beforeFence : List Char → Option (List Char)
  | [] => none
  | a :: as =>
    if "```".toList.isPrefixOf (a :: as) then some []
    else (beforeFence as).map (a :: ·)

/-- `re.search(r"OP\s*(.*?)\s*```", clean, re.DOTALL).group(1)` up to the
outer `.strip()`: the text between the leftmost occurrence of the opening
token that is followed by a closing fence, and that closing fence. -/
def findFenceSpan (op : List Char) : List Char → Option (List Char)
  | [] => none
  | a :: as =>
    if op.isPrefixOf (a :: as) then
      match beforeFence ((a :: as).drop op.length) with
      | some content => some content
      | none => findFenceSpan op as
    else findFenceSpan op as

/-- `re.search(r"\{.*\}", clean, re.DOTALL)`: greedy span from the first
opening brace to the last closing brace, when the latter comes later. -/
def braceSpan (l : List Char) : Option (List Char) :=
  match l.findIdx? (· = '\x7b'), l.reverse.findIdx? (· = '\x7d') with
  | some i, some rj =>
    let j := l.length - 1 - rj
    if i < j then some ((l.drop i).take (j - i + 1)) else none
  | _, _ => none

/-- Strategy 4 of `DiagramAgent._extract_json` (diagram.py:94-102): a
response whose first line starts with a Mermaid keyword is wrapped
verbatim into the expected record shape. -/
def rawMermaidWrap (clean : List Char) : Option JVal :=
  let first_line := lowerL (stripL ((splitCh '\n' clean).headD []))
  if keywordFound first_line then
    let tok := (first_line.dropWhile isPySpace).takeWhile (fun c => ¬ isPySpace c)
    some (.obj [("diagram_type", .str (String.mk (if tok = [] then "flowchart".toList else tok))),
                ("mermaid_code", .str (String.mk clean)),
                ("description", .str "Auto-extracted diagram")])
  else none

/-- `DiagramAgent._extract_json` (diagram.py:67-105): direct parse, then
the two fence patterns, then the brace span, then the raw-Mermaid wrap;
a parse failure at any strategy falls through to the next. -/
def _extract_json (jloads : List Char → Option JVal) (response : List Char) : Option JVal :=
  let clean := stripL response
  match jloads clean with
  | some v => some v
  | none =>
    match (match findFenceSpan "```json".toList clean with
           | some content => jloads (stripL content)
           | none => none) with
    | some v => some v
    | none =>
      match (match findFenceSpan "```".toList clean with
             | some content => jloads (stripL content)
             | none => none) with
      | some v => some v
      | none =>
        match (match braceSpan clean with
               | some span => jloads span
               | none => none) with
        | some v => some v
        | none => rawMermaidWrap clean

/-- The code of `DiagramAgent._fallback_diagram` (diagram.py:107-113). -/
def fallbackMermaid : List Char :=
  ("flowchart TD\n    A[Start] --> B\x7bInput Valid?\x7d\n    B -->|Yes| C[Process Data]\n    B -->|No| D[Handle Error]\n    C --> E[Return Result]\n    D --> E\n    E --> F[End]").toList

def _fallback_diagram : JVal :=
  .obj [("diagram_type", .str "flowchart"),
        ("mermaid_code", .str (String.mk fallbackMermaid)),
        ("description", .str "Auto-generated flowchart showing basic control flow")]

/-- `parsed["mermaid_code"] = <new code>` on the field list. -/
def setMermaid (fields : List (String × JVal)) (code : List Char) : List (String × JVal) :=
  fields.map (fun p => if p.1 == "mermaid_code" then (p.1, .str (String.mk code)) else p)

/-- `DiagramAgent.generate_diagram` (diagram.py:37-65) downstream of the
model response: extract, clean, validate, repair once, else fall back.
Python's dynamic-typing exceptions (`parsed.get` on a non-dict truthy
value, `clean_mermaid_code` on a truthy non-string) surface as
`Except.error`. -/
def generate_diagram (jloads : List Char → Option JVal) (response : List Char) :
    Except String JVal :=
  match _extract_json jloads response with
  | some parsed =>
    if jTruthy parsed then
      match parsed with
      | .obj fields =>
        let mc := (lookupJ fields "mermaid_code").getD .null
        if jTruthy mc then
          match mc with
          | .str s =>
            let cleaned := clean_mermaid_code s.toList
            if ( validate_mermaid_syntax cleaned).1 then
              .ok (.obj (setMermaid fields cleaned))
            else
              let repaired := attempt_mermaid_repair cleaned ( validate_mermaid_syntax cleaned).2
              if ( validate_mermaid_syntax repaired).1 then
                .ok (.obj (setMermaid fields repaired))
              else .ok _fallback_diagram
          | _ => .error "TypeError: mermaid_code is not a string"
        else .ok _fallback_diagram
      | _ => .error "AttributeError: parsed value has no attribute get"
    else .ok _fallback_diagram
  | none => .ok _fallback_diagram

/-! ## `backend/routes/repo_docs.py` — the repo-job pipeline

`orchestrator.run_agent` is an oracle `behavior : Nat → String →
AgentOutcome` from file index and agent name to a normal result or a
raised exception.  Timestamps are omitted; the WebSocket broadcasts are
recorded as an event trace (they are fire-and-forget externals and are
modelled as non-throwing, per spec §6).  Inside the job-level
`try`/`except` every agent exception is caught by the per-agent handler
and the section-assembly step has its own `try`, so the model's job
always ends `completed`. -/

inductive AgentOutcome where
  | ok (out : JVal)
  | err (msg : String)

/-- One `{path, content}` entry of the fetched file list. -/
structure FileSpec where
  path : String
  content : String
deriving DecidableEq

inductive AgStatus where
  | pending
  | running
  | completed
  | error
deriving DecidableEq

/-- A `FileResult["agents"][name]` sub-record's terminal state. -/
structure AgentSub where
  status : AgStatus
  output : Option JVal
  errMsg : Option String

/-- The broadcast trace: file-level progress, the per-agent `running`
broadcast, the per-agent `completed`/`error` broadcast, the synthesizing
step and the final completion. -/
inductive PipeEvent where
  | fileStart (idx : Nat) (path : String)
  | agentStart (idx : Nat) (agent : String)
  | agentDone (idx : Nat) (agent : String) (st : AgStatus)
  | synth
  | jobDone
deriving DecidableEq

/-- `agents = ["reader", "searcher", "writer", "verifier", "diagram"]`
(repo_docs.py:68). -/
def agentsList : List String := ["reader", "searcher", "writer", "verifier", "diagram"]

def outcomeStatus : AgentOutcome → AgStatus
  | .ok _ => .completed
  | .err _ => .error

/-- The inner `for agent_name in agents` loop (repo_docs.py:104-173):
set the sub-record to `running` (broadcast), run the agent, then record
`completed` with the output or `error` with the exception text
(broadcast) and continue with the remaining agents either way.  Returns
the sub-records, the successful `agent_outputs`, and the events. -/
def runAgentsGo (behavior : Nat → String → AgentOutcome) (idx : Nat) :
    List String → List (String × AgentSub) × List (String × JVal) × List PipeEvent
  | [] => ([], [], [])
  | a :: rest =>
    let r := runAgentsGo behavior idx rest
    match behavior idx a with
    | .ok out =>
      ((a, ⟨.completed, some out, none⟩) :: r.1, (a, out) :: r.2.1,
        .agentStart idx a :: .agentDone idx a .completed :: r.2.2)
    | .err m =>
      ((a, ⟨.error, none, some m⟩) :: r.1, r.2.1,
        .agentStart idx a :: .agentDone idx a .error :: r.2.2)

/-- One file's record (`file_result`, repo_docs.py:80-86/175-177).
`documentation` is `JVal.null` for Python `None`. -/
structure FileResult where
  path : String
  content : String
  status : String
  agents : List (String × AgentSub)
  documentation : JVal

/-- `agent_outputs.get("writer") or agent_outputs.get("diagram")`
(repo_docs.py:176). -/
def docFor (outs : List (String × JVal)) : JVal :=
  let w := ((outs.find? (fun p => p.1 == "writer")).map (·.2)).getD .null
  let d := ((outs.find? (fun p => p.1 == "diagram")).map (·.2)).getD .null
  if jTruthy w then w else d

/-- The outer `for file_idx, file_info in enumerate(files)` loop
(repo_docs.py:71-177). -/
def processFilesGo (behavior : Nat → String → AgentOutcome) :
    Nat → List FileSpec → List FileResult × List PipeEvent
  | _, [] => ([], [])
  | idx, f :: rest =>
    let r := runAgentsGo behavior idx agentsList
    let fr : FileResult := ⟨f.path, f.content, "completed", r.1, docFor r.2.1⟩
    let rest' := processFilesGo behavior (idx + 1) rest
    (fr :: rest'.1, (.fileStart idx f.path :: r.2.2) ++ rest'.2)

structure Job where
  status : String
  total_files : Nat
  files_completed : Nat
  file_results : List FileResult
  errMsg : Option String

/-- `process_repo_documentation` (repo_docs.py:36-326): run every file
through the five-agent chain, then synthesize sections and mark the job
`completed`. -/
def process_repo_documentation (behavior : Nat → String → AgentOutcome)
    (files : List FileSpec) : Job × List PipeEvent :=
  let (frs, evs) := processFilesGo behavior 0 files
  ({status := "completed", total_files := files.length,
    files_completed := files.length, file_results := frs, errMsg := none},
   evs ++ [.synth, .jobDone])

/-- `MAX_FILES = 50` (repo_docs.py:484). -/
def MAX_FILES : Nat := 50

/-- repo_docs.py:485-487: `if len(files) > MAX_FILES: files = files[:MAX_FILES]`. -/
def limitFiles (files : List FileSpec) : List FileSpec :=
  if MAX_FILES < files.length then files.take MAX_FILES else files

/-- `start_repo_documentation` (repo_docs.py:443-574) composed with its
background task: 404 (`none`) when no processable files, else cap the
file list at 50 and run the job over the capped list.  The returned
job's `total_files` is the capped length, as in both the endpoint's
response and the job record. -/
def start_repo_documentation (behavior : Nat → String → AgentOutcome)
    (files : List FileSpec) : Option Job :=
  if files.isEmpty then none
  else some (process_repo_documentation behavior (limitFiles files)).1

/-- Which file a broadcast event belongs to. -/
def eventFile : PipeEvent → Option Nat
  | .fileStart i _ => some i
  | .agentStart i _ => some i
  | .agentDone i _ _ => some i
  | _ => none

/-- The projection of a trace onto one file's events. -/
def fileEvents (tr : List PipeEvent) (i : Nat) : List PipeEvent :=
  tr.filter (fun e => eventFile e == some i)

/-- The canonical event block of file `i`: a file-start broadcast, then
per agent in pipeline order a start immediately followed by its terminal
status — agent `k+1` starts strictly after agent `k` finished, each
agent starts exactly once, and an errored agent is followed by the next
agent's start. -/
def fileBlock (behavior : Nat → String → AgentOutcome) (i : Nat) (path : String) :
    List PipeEvent :=
  .fileStart i path ::
    agentsList.flatMap (fun a =>
      [.agentStart i a, .agentDone i a (outcomeStatus (behavior i a))])

/-! ## Proof-layer helpers (statement vocabulary, not source code) -/

/-- No line of the text ends in a dangling arrow token. -/
def noDanglingLines (l : List Char) : Bool :=
  (splitCh '\n' l).all (fun p => !(danglingArrow p))

/-- Drop leading empty pieces of a line list. -/
def dropLeadNils (ls : List (List Char)) : List (List Char) :=
  ls.dropWhile List.isEmpty

/-- Drop trailing empty pieces of a line list. -/
def dropTrailNils (ls : List (List Char)) : List (List Char) :=
  (ls.reverse.dropWhile List.isEmpty).reverse

/-- `lstrip` the first piece of a line list. -/
def lstripHead : List (List Char) → List (List Char)
  | [] => []
  | h :: t => lstripL h :: t

/-- The normal form that `strip ∘ join` leaves of a list of
`rstrip`-fixed lines: leading empty lines dropped, the first remaining
line `lstrip`ped, trailing empty lines dropped. -/
def normPieces (ls : List (List Char)) : List (List Char) :=
  dropTrailNils (lstripHead (dropLeadNils ls))

/-- The scenario oracle of spec §8: file 2 (index 1) has a Writer agent
that throws; every other (file, agent) call succeeds. -/
def writerFailBehavior : Nat → String → AgentOutcome := fun i a =>
  if i = 1 ∧ a = "writer" then .err "boom" else .ok (.str "out")

/-- Three files for the scenario. -/
def threeFiles : List FileSpec := [⟨"a.py", "A"⟩, ⟨"b.py", "B"⟩, ⟨"c.py", "C"⟩]

end DocAgent

namespace DocAgent

/-! ## General lemmas about the string primitives -/

theorem dropWhile_idem (p : Char → Bool) (l : List Char) :
    List.dropWhile p (List.dropWhile p l) = List.dropWhile p l := by
  induction l with
  | nil => rfl
  | cons a as ih => by_cases h : p a <;> simp [List.dropWhile_cons, h, ih]

theorem lstripL_idem (l : List Char) : lstripL (lstripL l) = lstripL l :=
  dropWhile_idem isPySpace l

theorem rstripL_idem (l : List Char) : rstripL (rstripL l) = rstripL l := by
  simp [rstripL, List.reverse_reverse, dropWhile_idem]

theorem lstripL_suffix (l : List Char) : lstripL l <:+ l :=
  List.dropWhile_suffix isPySpace

theorem rstripL_prefix (l : List Char) : rstripL l <+: l := by
  have h : List.dropWhile isPySpace l.reverse <:+ l.reverse :=
    List.dropWhile_suffix isPySpace
  have := List.reverse_prefix.mpr h
  simpa [rstripL] using this

theorem lfix_of_prefix {q r : List Char} (hq : lstripL q = q) (hpre : r <+: q) :
    lstripL r = r := by
  cases r with
  | nil => rfl
  | cons a t =>
    cases q with
    | nil =>
      have := List.prefix_nil.mp hpre
      simp at this
    | cons b u =>
      have hab : a = b ∧ t <+: u := (List.cons_prefix_cons).mp hpre
      have hb : isPySpace b = false := by
        by_contra hpb
        have hpb' : isPySpace b = true := by
          cases hx : isPySpace b
          · exact absurd hx hpb
          · rfl
        unfold lstripL at hq
        rw [List.dropWhile_cons, if_pos hpb'] at hq
        have hlen := congrArg List.length hq
        have hle : (List.dropWhile isPySpace u).length ≤ u.length :=
          List.Sublist.length_le (List.dropWhile_sublist isPySpace)
        simp at hlen
        omega
      unfold lstripL
      rw [List.dropWhile_cons, hab.1, hb]
      simp

theorem rfix_of_suffix {q r : List Char} (hq : rstripL q = q) (hsuf : r <:+ q) :
    rstripL r = r := by
  have h1 : lstripL q.reverse = q.reverse := by
    have := congrArg List.reverse hq
    simpa [rstripL, lstripL] using this
  have h2 : r.reverse <+: q.reverse := by
    rw [List.reverse_prefix]
    exact hsuf
  have h3 := lfix_of_prefix h1 h2
  have := congrArg List.reverse h3
  simpa [rstripL, lstripL] using this

theorem stripL_idem (l : List Char) : stripL (stripL l) = stripL l := by
  unfold stripL
  have h1 : lstripL (rstripL (lstripL l)) = rstripL (lstripL l) :=
    lfix_of_prefix (lstripL_idem l) ( rstripL_prefix (lstripL l))
  rw [h1, rstripL_idem]

theorem rfix_lstrip {p : List Char} (h : rstripL p = p) :
    rstripL (lstripL p) = lstripL p :=
  rfix_of_suffix h (lstripL_suffix p)

theorem lstrip_ne_nil_of_rfix {q : List Char} (hq : rstripL q = q) (hne : q ≠ []) :
    lstripL q ≠ [] := by
  intro hcon
  have hall : ∀ x ∈ q, isPySpace x = true := List.dropWhile_eq_nil_iff.mp hcon
  have h2 : List.dropWhile isPySpace q.reverse = [] :=
    List.dropWhile_eq_nil_iff.mpr (fun x hx => hall x (List.mem_reverse.mp hx))
  have h3 : rstripL q = [] := by simp [rstripL, h2]
  exact hne (by rw [← hq, h3])

theorem splitCh_ne_nil (c : Char) (l : List Char) : splitCh c l ≠ [] := by
  cases l with
  | nil => simp [splitCh]
  | cons a as =>
    simp only [splitCh]
    cases splitCh c as with
    | nil => simp
    | cons h t => by_cases hac : a = c <;> simp [hac]

theorem joinNL_splitCh (l : List Char) : joinNL (splitCh '\n' l) = l := by
  induction l with
  | nil => rfl
  | cons a as ih =>
    have hrepr : splitCh '\n' (a :: as) =
        match splitCh '\n' as with
        | [] => [[]]
        | h :: t => if a = '\n' then [] :: h :: t else (a :: h) :: t := rfl
    rw [hrepr]
    cases hs : splitCh '\n' as with
    | nil => exact absurd hs (splitCh_ne_nil '\n' as)
    | cons h t =>
      rw [hs] at ih
      show joinNL (if a = '\n' then [] :: h :: t else (a :: h) :: t) = a :: as
      by_cases hc : a = '\n'
      · rw [if_pos hc]
        show '\n' :: joinNL (h :: t) = a :: as
        rw [ih, hc]
      · rw [if_neg hc]
        cases t with
        | nil =>
          show a :: h = a :: as
          simp only [joinNL] at ih
          rw [ih]
        | cons b t2 =>
          show (a :: h) ++ '\n' :: joinNL (b :: t2) = a :: as
          simp only [joinNL] at ih
          rw [List.cons_append, ih]

theorem popUnbalancedGo_of_balanced (o c : Char) (fuel : Nat) (lines : List (List Char))
    (h : (joinNL lines).count o = (joinNL lines).count c) :
    popUnbalancedGo o c fuel lines = lines := by
  cases fuel with
  | zero => rfl
  | succ n => simp [popUnbalancedGo, h]

theorem popUnbalanced_of_balanced (o c : Char) (lines : List (List Char))
    (h : (joinNL lines).count o = (joinNL lines).count c) :
    popUnbalanced o c lines = lines :=
  popUnbalancedGo_of_balanced o c lines.length lines h

/-- `validate_mermaid_syntax` succeeds exactly when the stripped code is
non-empty, the first line carries a keyword, and the three bracket pairs
balance. -/
theorem validate_true_iff (x : List Char) :
    ( validate_mermaid_syntax x).1 = true ↔
      stripL x ≠ [] ∧
      keywordFound (lowerL (stripL ((splitCh '\n' (stripL x)).headD []))) = true ∧
      x.count '(' = x.count ')' ∧ x.count '[' = x.count ']' ∧
      x.count '\x7b' = x.count '\x7d' := by
  unfold validate_mermaid_syntax
  split_ifs with h1 h2 h3 h4 <;>
    by_cases hk : keywordFound (lowerL (stripL ((splitCh '\n' (stripL x)).headD []))) = true <;>
    simp_all

/-- On text that validates, is stripped, and has no dangling-arrow line,
`attempt_mermaid_repair` is the identity: the keyword is present, the
brackets are balanced so no line is popped, and no line is filtered. -/
theorem repair_fixed (x r : List Char) (hv : ( validate_mermaid_syntax x).1 = true)
    (hd : noDanglingLines x = true) (hs : stripL x = x) :
    attempt_mermaid_repair x r = x := by
  obtain ⟨h1, hkw, hp1, hp2, hp3⟩ := (validate_true_iff x).mp hv
  rw [hs] at hkw
  have hxne : x ≠ [] := by
    intro h
    exact h1 (by rw [hs, h])
  have hjoin : joinNL (splitCh '\n' x) = x := joinNL_splitCh x
  have hfilter : (splitCh '\n' x).filter (fun l => !(danglingArrow l)) = splitCh '\n' x :=
    List.filter_eq_self.mpr (by
      intro a ha
      exact List.all_eq_true.mp hd a ha)
  have hcond : ¬¬ keywordFound (lowerL (stripL ((splitCh '\n' x).headD []))) = true :=
    fun hn => hn hkw
  rw [attempt_mermaid_repair, if_neg hxne]
  simp only [hs]
  rw [if_neg hcond]
  rw [popUnbalanced_of_balanced '(' ')' (splitCh '\n' x) (by rw [hjoin]; exact hp1)]
  rw [popUnbalanced_of_balanced '[' ']' (splitCh '\n' x) (by rw [hjoin]; exact hp2)]
  rw [popUnbalanced_of_balanced '\x7b' '\x7d' (splitCh '\n' x) (by rw [hjoin]; exact hp3)]
  rw [hjoin, hfilter, hjoin, hs]

/-- Any `attempt_mermaid_repair` output is strip-fixed. -/
theorem repair_stripped (x r : List Char) :
    stripL (attempt_mermaid_repair x r) = attempt_mermaid_repair x r := by
  by_cases h : x = []
  · simp [attempt_mermaid_repair, h, stripL, lstripL, rstripL]
  · rw [attempt_mermaid_repair, if_neg h]
    simp only []
    exact stripL_idem _

/-- C7, counterexample: on `"flowchart TD\nX( -->\nY)"` the dangling
arrow line `"X( -->"` carries the only opening parenthesis, so removing
it unbalances the text; the second repair then pops `"Y)"`, and the two
results differ.  Moreover `"flowchart TD\nA -->"` validates, yet repair
removes its dangling arrow line, so repair on already-valid text is not
a no-op either. -/
theorem C7_repair_not_idempotent_counterexample :
    (attempt_mermaid_repair (attempt_mermaid_repair "flowchart TD\nX( -->\nY)".toList [])
        [] ≠ attempt_mermaid_repair "flowchart TD\nX( -->\nY)".toList []) ∧
    ( validate_mermaid_syntax "flowchart TD\nA -->".toList).1 = true ∧
    attempt_mermaid_repair "flowchart TD\nA -->".toList [] ≠
      "flowchart TD\nA -->".toList := by decide

/-- C7 (amended): for every diagram text `x` and reasons `r`, `r2`,
repair is a no-op on text that validates, is stripped, and contains no
dangling-arrow line; consequently repairing twice yields the same text
as repairing once whenever the once-repaired text still validates and
contains no dangling-arrow line.  (Unconditional idempotence fails:
dangling-arrow removal can unbalance brackets or remove the keyword
line, see the counterexample.) -/
theorem C7_repair_idempotent_amended (x r r2 : List Char) :
    (( validate_mermaid_syntax x).1 = true → noDanglingLines x = true → stripL x = x →
      attempt_mermaid_repair x r = x) ∧
    (( validate_mermaid_syntax (attempt_mermaid_repair x r)).1 = true →
      noDanglingLines (attempt_mermaid_repair x r) = true →
      attempt_mermaid_repair (attempt_mermaid_repair x r) r2 = attempt_mermaid_repair x r) := by
  constructor
  · exact fun hv hd hs => repair_fixed x r hv hd hs
  · intro hv hd
    exact repair_fixed _ r2 hv hd (repair_stripped x r)

/-- Witness for C7's amended theorem at concrete inputs. -/
theorem C7_repair_idempotent_amended_witness :
    attempt_mermaid_repair "flowchart TD\nA --> B".toList [] =
      "flowchart TD\nA --> B".toList ∧
    attempt_mermaid_repair (attempt_mermaid_repair "B --> C".toList []) [] =
      attempt_mermaid_repair "B --> C".toList [] := by
  constructor
  · exact (C7_repair_idempotent_amended "flowchart TD\nA --> B".toList [] []).1
      (by decide) (by decide) (by decide)
  · exact (C7_repair_idempotent_amended "B --> C".toList [] []).2 (by decide) (by decide)

/-- C9: on `"B --> C\nC -->"` validation fails (no recognised keyword on
the first line) and repair prepends the `flowchart TD` header and drops
the trailing dangling-arrow line, yielding `"flowchart TD\nB --> C"`. -/
theorem C9_dangling_arrow_concrete :
    ( validate_mermaid_syntax "B --> C\nC -->".toList).1 = false ∧
    attempt_mermaid_repair "B --> C\nC -->".toList
        ( validate_mermaid_syntax "B --> C\nC -->".toList).2 =
      "flowchart TD\nB --> C".toList := by decide

/-! ## Membership and split/join normalisation lemmas (towards C8) -/

theorem splitCh_cons_eq {c a : Char} {as h : List Char} {t : List (List Char)}
    (hs : splitCh c as = h :: t) :
    splitCh c (a :: as) = if a = c then [] :: h :: t else (a :: h) :: t := by
  show (match splitCh c as with
        | [] => [[]]
        | h :: t => if a = c then [] :: h :: t else (a :: h) :: t) =
      if a = c then [] :: h :: t else (a :: h) :: t
  rw [hs]

theorem mem_of_mem_splitCh {c : Char} {l p : List Char} (hp : p ∈ splitCh c l) :
    ∀ b ∈ p, b ∈ l := by
  induction l generalizing p with
  | nil =>
    simp [splitCh] at hp
    subst hp
    simp
  | cons a as ih =>
    obtain ⟨h, t, hs⟩ := List.exists_cons_of_ne_nil (splitCh_ne_nil c as)
    rw [splitCh_cons_eq hs] at hp
    by_cases hc : a = c
    · rw [if_pos hc] at hp
      rcases List.mem_cons.mp hp with h1 | h2
      · subst h1
        simp
      · intro b hb
        exact List.mem_cons_of_mem a (ih (by rw [hs]; exact h2) b hb)
    · rw [if_neg hc] at hp
      rcases List.mem_cons.mp hp with h1 | h2
      · subst h1
        intro b hb
        rcases List.mem_cons.mp hb with h3 | h4
        · subst h3
          simp
        · exact List.mem_cons_of_mem a
            (ih (by rw [hs]; exact List.mem_cons_self h t) b h4)
      · intro b hb
        exact List.mem_cons_of_mem a
          (ih (by rw [hs]; exact List.mem_cons_of_mem h h2) b hb)

theorem sep_not_mem_splitCh {c : Char} {l p : List Char} (hp : p ∈ splitCh c l) :
    c ∉ p := by
  induction l generalizing p with
  | nil =>
    simp [splitCh] at hp
    subst hp
    simp
  | cons a as ih =>
    obtain ⟨h, t, hs⟩ := List.exists_cons_of_ne_nil (splitCh_ne_nil c as)
    rw [splitCh_cons_eq hs] at hp
    by_cases hc : a = c
    · rw [if_pos hc] at hp
      rcases List.mem_cons.mp hp with h1 | h2
      · subst h1
        simp
      · exact ih (by rw [hs]; exact h2)
    · rw [if_neg hc] at hp
      rcases List.mem_cons.mp hp with h1 | h2
      · subst h1
        intro hb
        rcases List.mem_cons.mp hb with h3 | h4
        · exact hc h3.symm
        · exact ih (by rw [hs]; exact List.mem_cons_self h t) h4
      · exact ih (by rw [hs]; exact List.mem_cons_of_mem h h2)

theorem mem_joinNL {b : Char} {ls : List (List Char)} (hb : b ∈ joinNL ls) :
    (∃ p ∈ ls, b ∈ p) ∨ b = '\n' := by
  induction ls with
  | nil => simp [joinNL] at hb
  | cons p t ih =>
    cases t with
    | nil =>
      left
      exact ⟨p, by simp, hb⟩
    | cons q t2 =>
      simp only [joinNL] at hb
      rcases List.mem_append.mp hb with h1 | h2
      · exact Or.inl ⟨p, by simp, h1⟩
      · rcases List.mem_cons.mp h2 with h3 | h4
        · exact Or.inr h3
        · rcases ih h4 with ⟨p2, hp2, hbp2⟩ | hnl
          · exact Or.inl ⟨p2, List.mem_cons_of_mem p hp2, hbp2⟩
          · exact Or.inr hnl

theorem mem_of_mem_rstripL {b : Char} {p : List Char} (hb : b ∈ rstripL p) : b ∈ p :=
  List.Sublist.mem hb (( rstripL_prefix p).sublist)

theorem mem_of_mem_lstripL {b : Char} {p : List Char} (hb : b ∈ lstripL p) : b ∈ p :=
  List.Sublist.mem hb (List.dropWhile_sublist isPySpace)

theorem mem_of_mem_stripL {b : Char} {p : List Char} (hb : b ∈ stripL p) : b ∈ p :=
  mem_of_mem_lstripL (mem_of_mem_rstripL hb)

/-- Any character of `strip(join(rstrip lines))` is a character of the
input or a newline. -/
theorem mem_stage6 {b : Char} {l : List Char} (hb : b ∈ stripL (rstripLines l)) :
    b ∈ l ∨ b = '\n' := by
  have h1 : b ∈ rstripLines l := mem_of_mem_stripL hb
  rcases mem_joinNL h1 with ⟨p, hp, hbp⟩ | hnl
  · rcases List.mem_map.mp hp with ⟨p0, hp0, hrfl⟩
    subst hrfl
    exact Or.inl (mem_of_mem_splitCh hp0 b (mem_of_mem_rstripL hbp))
  · exact Or.inr hnl

theorem splitCh_of_not_mem {c : Char} {p : List Char} (h : c ∉ p) :
    splitCh c p = [p] := by
  induction p with
  | nil => rfl
  | cons a as ih =>
    have ha : a ≠ c := fun hc => h (by rw [hc]; simp)
    have has : c ∉ as := fun hc => h (List.mem_cons_of_mem a hc)
    rw [splitCh_cons_eq (ih has), if_neg ha]

theorem splitCh_append_sep {c : Char} {p r : List Char} (h : c ∉ p) :
    splitCh c (p ++ c :: r) = p :: splitCh c r := by
  induction p with
  | nil =>
    obtain ⟨h2, t2, hs⟩ := List.exists_cons_of_ne_nil (splitCh_ne_nil c r)
    simp only [List.nil_append]
    rw [splitCh_cons_eq hs, if_pos rfl, hs]
  | cons a as ih =>
    have ha : a ≠ c := fun hc => h (by rw [hc]; simp)
    have has : c ∉ as := fun hc => h (List.mem_cons_of_mem a hc)
    simp only [List.cons_append]
    obtain ⟨h2, t2, hs⟩ :=
      List.exists_cons_of_ne_nil (splitCh_ne_nil c (as ++ c :: r))
    rw [splitCh_cons_eq hs, if_neg ha]
    have heq : h2 :: t2 = as :: splitCh c r := hs.symm.trans (ih has)
    injection heq with e1 e2
    rw [e1, e2]

theorem splitCh_joinNL {ls : List (List Char)} (hne : ls ≠ [])
    (hnc : ∀ p ∈ ls, '\n' ∉ p) :
    splitCh '\n' (joinNL ls) = ls := by
  induction ls with
  | nil => exact absurd rfl hne
  | cons p t ih =>
    cases t with
    | nil =>
      exact splitCh_of_not_mem (hnc p (by simp))
    | cons q t2 =>
      show splitCh '\n' (p ++ '\n' :: joinNL (q :: t2)) = p :: q :: t2
      rw [splitCh_append_sep (hnc p (by simp))]
      rw [ih (by simp) (fun p2 hp2 => hnc p2 (List.mem_cons_of_mem p hp2))]

/-- `lstrip` of a joined line list: leading empty lines vanish and the
first surviving line is `lstrip`ped — provided no non-empty line
`lstrip`s to nothing. -/
theorem lstrip_joinNL {ls : List (List Char)}
    (h : ∀ p ∈ ls, p ≠ [] → lstripL p ≠ []) :
    lstripL (joinNL ls) = joinNL (lstripHead (dropLeadNils ls)) := by
  induction ls with
  | nil => rfl
  | cons p t ih =>
    by_cases hp : p = []
    · subst hp
      cases t with
      | nil => rfl
      | cons q t2 =>
        have hstep : lstripL (joinNL ([] :: q :: t2)) = lstripL (joinNL (q :: t2)) := by
          show List.dropWhile isPySpace ('\n' :: joinNL (q :: t2)) = _
          rw [List.dropWhile_cons]
          simp [isPySpace, lstripL]
        rw [hstep, ih (fun p2 hp2 => h p2 (List.mem_cons_of_mem [] hp2))]
        have : dropLeadNils ([] :: q :: t2) = dropLeadNils (q :: t2) := by
          simp [dropLeadNils, List.dropWhile_cons]
        rw [this]
    · have hlp : lstripL p ≠ [] := h p (by simp) hp
      have hdl : dropLeadNils (p :: t) = p :: t := by
        unfold dropLeadNils
        rw [List.dropWhile_cons]
        simp [List.isEmpty_iff, hp]
      rw [hdl]
      cases t with
      | nil => rfl
      | cons q t2 =>
        show lstripL (p ++ '\n' :: joinNL (q :: t2)) =
          joinNL (lstripL p :: q :: t2)
        rw [show joinNL (lstripL p :: q :: t2) =
              lstripL p ++ '\n' :: joinNL (q :: t2) from rfl]
        unfold lstripL
        rw [List.dropWhile_append]
        rw [if_neg (by
          intro hc
          exact hlp (List.isEmpty_iff.mp hc))]

theorem joinNL_append_single {ls : List (List Char)} {q : List Char} (hne : ls ≠ []) :
    joinNL (ls ++ [q]) = joinNL ls ++ '\n' :: q := by
  induction ls with
  | nil => exact absurd rfl hne
  | cons p t ih =>
    cases t with
    | nil => rfl
    | cons p2 t2 =>
      show joinNL (p :: ((p2 :: t2) ++ [q])) = (p ++ '\n' :: joinNL (p2 :: t2)) ++ '\n' :: q
      have hstep : joinNL (p :: ((p2 :: t2) ++ [q])) =
          p ++ '\n' :: joinNL ((p2 :: t2) ++ [q]) := rfl
      rw [hstep, ih (by simp)]
      simp [List.append_assoc]

theorem joinNL_reverse (ls : List (List Char)) :
    (joinNL ls).reverse = joinNL (ls.reverse.map List.reverse) := by
  induction ls with
  | nil => rfl
  | cons p t ih =>
    cases t with
    | nil => rfl
    | cons q t2 =>
      show (p ++ '\n' :: joinNL (q :: t2)).reverse = _
      rw [List.reverse_append]
      have h1 : ('\n' :: joinNL (q :: t2)).reverse =
          (joinNL (q :: t2)).reverse ++ ['\n'] := by
        simp
      rw [h1, ih]
      have hA : (q :: t2).reverse.map List.reverse ≠ [] := by
        simp
      rw [show ((p :: q :: t2).reverse.map List.reverse) =
            ((q :: t2).reverse.map List.reverse) ++ [p.reverse] by simp]
      rw [joinNL_append_single hA]
      simp [List.append_assoc]

theorem mem_dropLeadNils {q : List Char} {ls : List (List Char)}
    (hq : q ∈ dropLeadNils ls) : q ∈ ls :=
  List.Sublist.mem hq (List.dropWhile_sublist List.isEmpty)

theorem mem_dropTrailNils {q : List Char} {ls : List (List Char)}
    (hq : q ∈ dropTrailNils ls) : q ∈ ls := by
  unfold dropTrailNils at hq
  have := List.mem_reverse.mpr hq
  rw [List.reverse_reverse] at this
  exact List.mem_reverse.mp (List.Sublist.mem this (List.dropWhile_sublist List.isEmpty))

theorem mem_lstripHead {q : List Char} {ls : List (List Char)}
    (hq : q ∈ lstripHead ls) : q ∈ ls ∨ ∃ p ∈ ls, q = lstripL p := by
  cases ls with
  | nil => simp [lstripHead] at hq
  | cons p t =>
    rcases List.mem_cons.mp hq with h1 | h2
    · exact Or.inr ⟨p, by simp, h1⟩
    · exact Or.inl (List.mem_cons_of_mem p h2)

theorem lstripHead_of_lfix {ls : List (List Char)}
    (h : ∀ q ∈ ls, lstripL q = q) : lstripHead ls = ls := by
  cases ls with
  | nil => rfl
  | cons p t =>
    show lstripL p :: t = p :: t
    rw [h p (by simp)]

/-- `rstrip` of a joined line list of `rstrip`-fixed lines: trailing
empty lines vanish. -/
theorem rstrip_joinNL {ls : List (List Char)}
    (h : ∀ p ∈ ls, rstripL p = p) :
    rstripL (joinNL ls) = joinNL (dropTrailNils ls) := by
  have hlfix : ∀ q ∈ ls.reverse.map List.reverse, lstripL q = q := by
    intro q hq
    rcases List.mem_map.mp hq with ⟨p, hp, hrfl⟩
    have hrp : rstripL p = p := h p (List.mem_reverse.mp hp)
    subst hrfl
    unfold rstripL at hrp
    have := congrArg List.reverse hrp
    rw [List.reverse_reverse] at this
    exact this
  have hstep : ∀ q ∈ ls.reverse.map List.reverse, q ≠ [] → lstripL q ≠ [] := by
    intro q hq hne
    rw [hlfix q hq]
    exact hne
  rw [show rstripL (joinNL ls) = (lstripL ((joinNL ls).reverse)).reverse from rfl]
  rw [joinNL_reverse, lstrip_joinNL hstep,
    lstripHead_of_lfix (fun q hq => hlfix q (mem_dropLeadNils hq))]
  have hcomm : dropLeadNils (ls.reverse.map List.reverse) =
      (dropTrailNils ls).reverse.map List.reverse := by
    unfold dropLeadNils dropTrailNils
    rw [List.dropWhile_map]
    have : (List.isEmpty ∘ List.reverse) = (List.isEmpty (α := Char)) := by
      funext p
      cases p <;> simp
    rw [this, List.reverse_reverse]
  rw [hcomm]
  have := joinNL_reverse (dropTrailNils ls)
  rw [← this, List.reverse_reverse]

/-- The final `strip` of a joined `rstrip`-fixed line list yields the
join of the normalised line list. -/
theorem strip_joinNL {ls : List (List Char)}
    (h : ∀ p ∈ ls, rstripL p = p) :
    stripL (joinNL ls) = joinNL (normPieces ls) := by
  unfold stripL normPieces
  rw [lstrip_joinNL (fun p hp hne => lstrip_ne_nil_of_rfix (h p hp) hne)]
  apply rstrip_joinNL
  intro p hp
  rcases mem_lstripHead hp with h1 | ⟨p0, hp0, hrfl⟩
  · exact h p (mem_dropLeadNils h1)
  · subst hrfl
    exact rfix_lstrip (h p0 (mem_dropLeadNils hp0))

theorem dropWhile_idem' {α : Type} (p : α → Bool) (l : List α) :
    List.dropWhile p (List.dropWhile p l) = List.dropWhile p l := by
  induction l with
  | nil => rfl
  | cons a as ih => by_cases h : p a <;> simp [List.dropWhile_cons, h, ih]

theorem dropWhile_eq_cons_head {α : Type} {p : α → Bool} {l t : List α} {a : α}
    (h : List.dropWhile p l = a :: t) : p a = false := by
  induction l with
  | nil => simp at h
  | cons x xs ih =>
    rw [List.dropWhile_cons] at h
    by_cases hx : p x
    · rw [if_pos hx] at h
      exact ih h
    · rw [if_neg hx] at h
      injection h with h1 _
      rw [← h1]
      cases hpx : p x
      · rfl
      · exact absurd hpx hx

theorem dropTrailNils_prefix (ls : List (List Char)) : dropTrailNils ls <+: ls := by
  unfold dropTrailNils
  have h : List.dropWhile List.isEmpty ls.reverse <:+ ls.reverse :=
    List.dropWhile_suffix List.isEmpty
  have := List.reverse_prefix.mpr h
  rwa [List.reverse_reverse] at this

theorem dropTrailNils_idem (ls : List (List Char)) :
    dropTrailNils (dropTrailNils ls) = dropTrailNils ls := by
  unfold dropTrailNils
  rw [List.reverse_reverse, dropWhile_idem']

theorem mem_normPieces {q : List Char} {ls : List (List Char)}
    (hq : q ∈ normPieces ls) : q ∈ ls ∨ ∃ p ∈ ls, q = lstripL p := by
  unfold normPieces at hq
  have h1 := mem_dropTrailNils hq
  rcases mem_lstripHead h1 with h2 | ⟨p, hp, hrfl⟩
  · exact Or.inl (mem_dropLeadNils h2)
  · exact Or.inr ⟨p, mem_dropLeadNils hp, hrfl⟩

theorem map_fix {α : Type} {f : α → α} {l : List α} (h : ∀ x ∈ l, f x = x) :
    l.map f = l := by
  induction l with
  | nil => rfl
  | cons a as ih =>
    rw [List.map_cons, h a (by simp), ih (fun x hx => h x (List.mem_cons_of_mem a hx))]

/-- `normPieces` is idempotent on a list of `rstrip`-fixed lines. -/
theorem normPieces_fixed {ls : List (List Char)} (h : ∀ p ∈ ls, rstripL p = p) :
    normPieces (normPieces ls) = normPieces ls := by
  unfold normPieces
  cases hdl : dropLeadNils ls with
  | nil => rfl
  | cons p0 rest =>
    have hp0f : List.isEmpty p0 = false := dropWhile_eq_cons_head hdl
    have hp0ne : p0 ≠ [] := by
      intro hc
      rw [hc] at hp0f
      simp at hp0f
    have hp0mem : p0 ∈ ls := mem_dropLeadNils (by rw [hdl]; simp)
    have hlp0ne : lstripL p0 ≠ [] := lstrip_ne_nil_of_rfix (h p0 hp0mem) hp0ne
    show dropTrailNils (lstripHead (dropLeadNils (dropTrailNils (lstripHead (p0 :: rest))))) =
      dropTrailNils (lstripHead (p0 :: rest))
    rw [show lstripHead (p0 :: rest) = lstripL p0 :: rest from rfl]
    cases hms : dropTrailNils (lstripL p0 :: rest) with
    | nil => rfl
    | cons m0 mt =>
      have hpre := dropTrailNils_prefix (lstripL p0 :: rest)
      rw [hms] at hpre
      have hm0 : m0 = lstripL p0 := (List.cons_prefix_cons.mp hpre).1
      have hm0ne : m0 ≠ [] := by
        rw [hm0]
        exact hlp0ne
      have h1 : dropLeadNils (m0 :: mt) = m0 :: mt := by
        unfold dropLeadNils
        rw [List.dropWhile_cons]
        simp [List.isEmpty_iff, hm0ne]
      have h2 : lstripHead (m0 :: mt) = m0 :: mt := by
        show lstripL m0 :: mt = m0 :: mt
        rw [hm0, lstripL_idem]
      rw [h1, h2, ← hms, dropTrailNils_idem]

/-- The per-line-`rstrip`-then-`strip` stage of `clean_mermaid_code` is
idempotent. -/
theorem stage6_idem (l : List Char) :
    stripL (rstripLines (stripL (rstripLines l))) = stripL (rstripLines l) := by
  have hrfix : ∀ p ∈ (splitCh '\n' l).map rstripL, rstripL p = p := by
    intro p hp
    rcases List.mem_map.mp hp with ⟨p0, _, hrfl⟩
    subst hrfl
    exact rstripL_idem p0
  have hnoc : ∀ p ∈ (splitCh '\n' l).map rstripL, '\n' ∉ p := by
    intro p hp hmem
    rcases List.mem_map.mp hp with ⟨p0, hp0, hrfl⟩
    subst hrfl
    exact sep_not_mem_splitCh hp0 (mem_of_mem_rstripL hmem)
  have hmsrfix : ∀ p ∈ normPieces ((splitCh '\n' l).map rstripL), rstripL p = p := by
    intro p hp
    rcases mem_normPieces hp with h1 | ⟨p0, hp0, hrfl⟩
    · exact hrfix p h1
    · subst hrfl
      exact rfix_lstrip (hrfix p0 hp0)
  have hmsnoc : ∀ p ∈ normPieces ((splitCh '\n' l).map rstripL), '\n' ∉ p := by
    intro p hp hmem
    rcases mem_normPieces hp with h1 | ⟨p0, hp0, hrfl⟩
    · exact hnoc p h1 hmem
    · subst hrfl
      exact hnoc p0 hp0 (mem_of_mem_lstripL hmem)
  have hz : stripL (rstripLines l) = joinNL (normPieces ((splitCh '\n' l).map rstripL)) := by
    unfold rstripLines
    exact strip_joinNL hrfix
  rw [hz]
  cases hms : normPieces ((splitCh '\n' l).map rstripL) with
  | nil => rfl
  | cons m0 mt =>
    rw [← hms]
    unfold rstripLines
    rw [splitCh_joinNL (by rw [hms]; simp) hmsnoc]
    rw [map_fix hmsrfix]
    rw [strip_joinNL hmsrfix, normPieces_fixed hrfix]

/-! ## Fixed-point lemmas for the remaining stages of `clean_mermaid_code` -/

theorem hasSubL_of_isPrefixOf {pat l : List Char} (h : pat.isPrefixOf l = true) :
    hasSubL pat l = true := by
  cases l with
  | nil => simpa [hasSubL] using h
  | cons a as => simp [hasSubL, h]

theorem cutTrailingFence_noop {l : List Char} (h : hasSubL "```".toList l = false) :
    cutTrailingFence l = l := by
  induction l with
  | nil => rfl
  | cons a as ih =>
    have hsplit : "```".toList.isPrefixOf (a :: as) = false ∧
        hasSubL "```".toList as = false := by
      have h' := h
      simp only [hasSubL, Bool.or_eq_false_iff] at h'
      exact h'
    have hm1 : ¬ trailMatchAt (a :: as) = true := by
      intro hc
      unfold trailMatchAt at hc
      rw [Bool.and_eq_true] at hc
      rw [hc.1] at hsplit
      simp at hsplit
    have hm2 : ¬ (a = '\n' && trailMatchAt as) = true := by
      intro hc
      rw [Bool.and_eq_true] at hc
      have h3 := hc.2
      unfold trailMatchAt at h3
      rw [Bool.and_eq_true] at h3
      have := hasSubL_of_isPrefixOf h3.1
      rw [this] at hsplit
      simp at hsplit
    show (if trailMatchAt (a :: as) = true then []
      else if (a = '\n' && trailMatchAt as) = true then []
      else a :: cutTrailingFence as) = a :: as
    rw [if_neg hm1, if_neg hm2, ih hsplit.2]

theorem pyReplaceGo_noop {old new : List Char} {c : Char} (hc : c ∈ old) :
    ∀ fuel l, c ∉ l → pyReplaceGo old new fuel l = l := by
  intro fuel
  induction fuel with
  | zero =>
    intro l _
    cases l <;> rfl
  | succ n ih =>
    intro l hl
    cases l with
    | nil => rfl
    | cons a as =>
      have heq : pyReplaceGo old new (n + 1) (a :: as) =
          if old.isPrefixOf (a :: as) ∧ old ≠ [] then
            new ++ pyReplaceGo old new n ((a :: as).drop old.length)
          else a :: pyReplaceGo old new n as := rfl
      rw [heq]
      have hnp : ¬ (old.isPrefixOf (a :: as) ∧ old ≠ []) := by
        rintro ⟨hpre, -⟩
        exact hl (List.Sublist.mem hc ((List.isPrefixOf_iff_prefix.mp hpre).sublist))
      rw [if_neg hnp, ih as (fun hmem => hl (List.mem_cons_of_mem a hmem))]

theorem pyReplace_noop {old new : List Char} {c : Char} (hc : c ∈ old)
    {l : List Char} (hl : c ∉ l) : pyReplace old new l = l :=
  pyReplaceGo_noop hc l.length l hl

theorem uniHead_none {a : Char} {as : List Char} (ha : a ≠ '\\') :
    uniHead (a :: as) = none := by
  unfold uniHead
  split
  · rename_i b h1 h2 h3 h4 rest heq
    injection heq with e1 _
    rw [if_neg]
    rintro ⟨hb, -⟩
    exact ha (e1.trans hb)
  · rfl

theorem unicodeSubGo_noop : ∀ fuel (l : List Char), '\\' ∉ l → unicodeSubGo fuel l = l := by
  intro fuel
  induction fuel with
  | zero =>
    intro l _
    cases l <;> rfl
  | succ n ih =>
    intro l hl
    cases l with
    | nil => rfl
    | cons a as =>
      have ha : a ≠ '\\' := fun hc => hl (by rw [← hc]; simp)
      have h0 : uniHead (a :: as) = none := uniHead_none ha
      show (match uniHead (a :: as) with
            | some (ch, rest) => ch :: unicodeSubGo n rest
            | none => a :: unicodeSubGo n as) = a :: as
      rw [h0, ih as (fun hmem => hl (List.mem_cons_of_mem a hmem))]

theorem unicodeSub_noop {l : List Char} (hl : '\\' ∉ l) : unicodeSub l = l :=
  unicodeSubGo_noop l.length l hl

theorem pyReplaceGo_cr :
    ∀ fuel (l : List Char), l.length ≤ fuel →
      '\r' ∉ pyReplaceGo "\r".toList "\n".toList fuel l := by
  intro fuel
  induction fuel with
  | zero =>
    intro l hl
    have : l = [] := List.length_eq_zero.mp (Nat.le_zero.mp hl)
    subst this
    simp [pyReplaceGo]
  | succ n ih =>
    intro l hl
    cases l with
    | nil => simp [pyReplaceGo]
    | cons a as =>
      by_cases hp : ("\r".toList.isPrefixOf (a :: as) ∧ "\r".toList ≠ [])
      · have heq : pyReplaceGo "\r".toList "\n".toList (n + 1) (a :: as) =
            "\n".toList ++ pyReplaceGo "\r".toList "\n".toList n
              ((a :: as).drop "\r".toList.length) := by
          show (if "\r".toList.isPrefixOf (a :: as) ∧ "\r".toList ≠ [] then
              "\n".toList ++ pyReplaceGo "\r".toList "\n".toList n
                ((a :: as).drop "\r".toList.length)
            else a :: pyReplaceGo "\r".toList "\n".toList n as) = _
          rw [if_pos hp]
        rw [heq]
        intro hmem
        rcases List.mem_append.mp hmem with h1 | h2
        · simp at h1
        · have hlen : ((a :: as).drop "\r".toList.length).length ≤ n := by
            simp at hl ⊢
            omega
          exact ih _ hlen h2
      · have heq : pyReplaceGo "\r".toList "\n".toList (n + 1) (a :: as) =
            a :: pyReplaceGo "\r".toList "\n".toList n as := by
          show (if "\r".toList.isPrefixOf (a :: as) ∧ "\r".toList ≠ [] then
              "\n".toList ++ pyReplaceGo "\r".toList "\n".toList n
                ((a :: as).drop "\r".toList.length)
            else a :: pyReplaceGo "\r".toList "\n".toList n as) = _
          rw [if_neg hp]
        rw [heq]
        have ha : a ≠ '\r' := by
          intro hc
          apply hp
          refine ⟨?_, by simp⟩
          rw [hc]
          simp [List.isPrefixOf]
        intro hmem
        rcases List.mem_cons.mp hmem with h1 | h2
        · exact ha h1.symm
        · have hlen : as.length ≤ n := by
            simp at hl
            omega
          exact ih as hlen h2

/-- `clean_mermaid_code` output never contains a carriage return. -/
theorem clean_no_cr (x : List Char) : '\r' ∉ clean_mermaid_code x := by
  by_cases hx : x = []
  · simp [clean_mermaid_code, hx]
  · have key : ∀ w : List Char,
        '\r' ∉ stripL (rstripLines (pyReplace "\r".toList "\n".toList w)) := by
      intro w hmem
      rcases mem_stage6 hmem with h1 | h2
      · exact pyReplaceGo_cr _ _ (le_refl _) h1
      · exact (by decide : ('\r' : Char) ≠ '\n') h2
    rw [clean_mermaid_code, if_neg hx]
    exact key _

/-- C8, counterexample: cleaning `"\\n\u0060\u0060\u0060mermaid\nfoo"`
(a backslash-n escape followed by a fence) decodes the escape into a
real newline; the final strip then exposes a leading markdown fence,
which a second clean removes.  So `clean(clean x)` differs from
`clean x`. -/
theorem C8_clean_not_idempotent_counterexample :
    clean_mermaid_code (clean_mermaid_code "\\n```mermaid\nfoo".toList) ≠
      clean_mermaid_code "\\n```mermaid\nfoo".toList := by decide

/-- C8 (amended): `clean` is idempotent on every input whose cleaned
form contains no triple-backtick fence, no backslash, and does not start
with a byte-order mark; escape decoding can synthesize a new fence (or
new escapes, or a newly exposed BOM), so unconditional idempotence
fails.  The proof shows each stage of the second clean is the identity:
the fence cuts (no fence), the six `replace` calls and the unicode
decoder (no backslash), the BOM strip (no leading BOM), the `\r`
normalisation (a cleaned text never contains `\r`), and the final
rstrip-lines-and-strip stage, which is idempotent. -/
theorem C8_clean_idempotent_amended (x : List Char)
    (hfence : hasSubL "```".toList (clean_mermaid_code x) = false)
    (hbs : '\\' ∉ clean_mermaid_code x)
    (hbom : (clean_mermaid_code x).head? ≠ some '\uFEFF') :
    clean_mermaid_code (clean_mermaid_code x) = clean_mermaid_code x := by
  by_cases hynil : clean_mermaid_code x = []
  · rw [hynil]
    rfl
  · have hcr : '\r' ∉ clean_mermaid_code x := clean_no_cr x
    have hpre : ¬ "```".toList.isPrefixOf (clean_mermaid_code x) = true := by
      intro hc
      rw [hasSubL_of_isPrefixOf hc] at hfence
      simp at hfence
    have h1 : leadFence (clean_mermaid_code x) = clean_mermaid_code x := by
      unfold leadFence
      rw [if_neg hpre]
    have h2 : cutTrailingFence (clean_mermaid_code x) = clean_mermaid_code x :=
      cutTrailingFence_noop hfence
    have h3 := @pyReplace_noop "\\\\n".toList "\n".toList '\\'
      (by decide) _ hbs
    have h4 := @pyReplace_noop "\\\\t".toList "  ".toList '\\'
      (by decide) _ hbs
    have h5 := @pyReplace_noop "\\\\\"".toList "\"".toList '\\'
      (by decide) _ hbs
    have h6 := @pyReplace_noop "\\n".toList "\n".toList '\\'
      (by decide) _ hbs
    have h7 := @pyReplace_noop "\\t".toList "  ".toList '\\'
      (by decide) _ hbs
    have h8 := @pyReplace_noop "\\\"".toList "\"".toList '\\'
      (by decide) _ hbs
    have h9 : unicodeSub (clean_mermaid_code x) = clean_mermaid_code x :=
      unicodeSub_noop hbs
    have h10 : (clean_mermaid_code x).dropWhile (· = '\uFEFF') = clean_mermaid_code x := by
      cases hy : clean_mermaid_code x with
      | nil => rfl
      | cons a as =>
        rw [List.dropWhile_cons, if_neg]
        intro hc
        apply hbom
        rw [hy]
        have ha : a = '\uFEFF' := of_decide_eq_true hc
        rw [ha]
        rfl
    have h11 := @pyReplace_noop "\r\n".toList "\n".toList '\r'
      (by decide) _ hcr
    have h12 := @pyReplace_noop "\r".toList "\n".toList '\r'
      (by decide) _ hcr
    rw [clean_mermaid_code, if_neg hynil]
    show stripL (rstripLines (pyReplace "\r".toList "\n".toList
      (pyReplace "\r\n".toList "\n".toList
        (List.dropWhile (· = '\uFEFF') (unicodeSub
          (pyReplace "\\\"".toList "\"".toList
            (pyReplace "\\t".toList "  ".toList
              (pyReplace "\\n".toList "\n".toList
                (pyReplace "\\\\\"".toList "\"".toList
                  (pyReplace "\\\\t".toList "  ".toList
                    (pyReplace "\\\\n".toList "\n".toList
                      (cutTrailingFence (leadFence (clean_mermaid_code x))))))))))))))
      = clean_mermaid_code x
    rw [h1, h2, h3, h4, h5, h6, h7, h8, h9, h10, h11, h12]
    have hxnil : x ≠ [] := by
      intro hc
      apply hynil
      rw [hc]
      rfl
    have hshape : ∃ w, clean_mermaid_code x = stripL (rstripLines w) := by
      rw [clean_mermaid_code, if_neg hxnil]
      exact ⟨_, rfl⟩
    obtain ⟨w, hw⟩ := hshape
    conv_lhs => rw [hw]
    conv_rhs => rw [hw]
    exact stage6_idem w

/-- Witness for C8's amended theorem at a concrete input. -/
theorem C8_clean_idempotent_amended_witness :
    clean_mermaid_code (clean_mermaid_code "flowchart TD\nA --> B".toList) =
      clean_mermaid_code "flowchart TD\nA --> B".toList :=
  C8_clean_idempotent_amended "flowchart TD\nA --> B".toList (by decide) (by decide)
    (by decide)

/-! ## Lemmas about the inference client (base.py) -/

theorem extract200_some_ne {e : Option String} {o : BytezOutput} {s : String}
    (h : extract200 e o = some s) : s ≠ "" := by
  cases e with
  | some m =>
    have h' : (none : Option String) = some s := h
    simp at h'
  | none =>
    cases o with
    | objContent c =>
      have h' : (if c ≠ "" then some c else none) = some s := h
      by_cases hc : c ≠ ""
      · rw [if_pos hc] at h'
        injection h' with h1
        rw [← h1]
        exact hc
      · rw [if_neg hc] at h'
        simp at h'
    | strOut t =>
      have h' : (if pyStripS t ≠ "" then some t else none) = some s := h
      by_cases hc : pyStripS t ≠ ""
      · rw [if_pos hc] at h'
        injection h' with h1
        rw [← h1]
        intro he
        apply hc
        rw [he]
        rfl
      · rw [if_neg hc] at h'
        simp at h'
    | otherOut =>
      have h' : (none : Option String) = some s := h
      simp at h'

theorem evResult_some_ne {ev : CloudEvent} {s : String} (h : evResult ev = some s) :
    s ≠ "" := by
  cases ev with
  | resp st e o =>
    have h' : (if st = 200 then extract200 e o else none) = some s := h
    by_cases hst : st = 200
    · rw [if_pos hst] at h'
      exact extract200_some_ne h'
    · rw [if_neg hst] at h'
      simp at h'
  | timeout =>
    have h' : (none : Option String) = some s := h
    simp at h'
  | exc =>
    have h' : (none : Option String) = some s := h
    simp at h'

theorem evResult_some_not_rate {ev : CloudEvent} {s : String}
    (h : evResult ev = some s) : isRate ev = false := by
  cases ev with
  | resp st e o =>
    have h' : (if st = 200 then extract200 e o else none) = some s := h
    by_cases hst : st = 200
    · show decide (st = 429) = false
      rw [hst]
      decide
    · rw [if_neg hst] at h'
      simp at h'
  | timeout => rfl
  | exc => rfl

theorem bytezGo_some_ne (script : Nat → CloudEvent) :
    ∀ (attempts waits : List Nat) (s : String),
      (bytezGo script attempts waits).1 = some s → s ≠ "" := by
  intro attempts
  induction attempts with
  | nil =>
    intro waits s h
    simp [bytezGo] at h
  | cons attempt rest ih =>
    intro waits s h
    simp only [bytezGo] at h
    by_cases hr : isRate (script attempt) = true
    · rw [if_pos hr] at h
      by_cases ha : attempt < max_retries
      · rw [if_pos ha] at h
        exact ih _ s h
      · rw [if_neg ha] at h
        simp at h
    · rw [if_neg hr] at h
      cases hev : evResult (script attempt) with
      | some content =>
        rw [hev] at h
        simp at h
        rw [← h]
        exact evResult_some_ne hev
      | none =>
        rw [hev] at h
        simp only [] at h
        by_cases h0 : attempt = 0
        · rw [if_pos h0] at h
          simp at h
        · rw [if_neg h0] at h
          exact ih _ s h

theorem ollama_some_ne {env : OllamaEnv} {mid s : String}
    (h : _call_ollama env mid = some s) : s ≠ "" := by
  simp only [_call_ollama] at h
  split at h
  · simp at h
  · split at h
    · simp at h
    · split at h
      · split at h
        · rename_i content hchat
          by_cases hc : content ≠ ""
          · rw [if_pos hc] at h
            injection h with h1
            rw [← h1]
            exact hc
          · rw [if_neg hc] at h
            simp at h
        · simp at h
      · simp at h

theorem mock_ne (messages : List Msg) : _mock_response messages ≠ "" := by
  have hfor : ∀ c : String, mockFor c ≠ "" := by
    intro c
    simp only [mockFor]
    split_ifs <;> decide
  exact hfor _

/-- C1: `generate` never returns the empty string for any message list,
configuration, cloud script and local environment: a cloud success
carries non-empty content by the 200-branch guards, an Ollama success by
its truthiness guard, and every mock branch is a non-empty literal. -/
theorem C1_generate_nonempty (api_key : Bool) (cloud : Nat → CloudEvent)
    (ollama : OllamaEnv) (model_id : String) (messages : List Msg) :
    generate api_key cloud ollama model_id messages ≠ "" := by
  unfold generate
  cases hb : (if api_key = true then (_call_bytez cloud).1 else none) with
  | some r =>
    show r ≠ ""
    have hsome : (_call_bytez cloud).1 = some r := by
      by_cases hk : api_key = true
      · rw [if_pos hk] at hb
        exact hb
      · rw [if_neg hk] at hb
        simp at hb
    exact bytezGo_some_ne cloud _ _ r hsome
  | none =>
    cases ho : _call_ollama ollama model_id with
    | some r =>
      show r ≠ ""
      exact ollama_some_ne ho
    | none =>
      show _mock_response messages ≠ ""
      exact mock_ne messages

/-- C3, counterexample: with a 429 on attempt 1, a 500 on attempt 2 and
a 200 on attempt 3, the claim says the 500 abandons the cloud path
immediately (result `none`); the code instead proceeds to attempt 3 and
returns its content (the `if attempt == 0: break` only fires on the
first attempt). -/
theorem C3_cloud_retry_counterexample :
    _call_bytez (fun n =>
      match n with
      | 0 => .resp 429 none .otherOut
      | 1 => .resp 500 none .otherOut
      | _ => .resp 200 none (.objContent "late")) = (some "late", [5]) ∧
    (some "late" : Option String) ≠ none := by
  exact ⟨by decide, by decide⟩

/-- C3 (amended): on the cloud path, a 429 on attempt `i` sleeps
`5*(i+1)` seconds and retries, for at most 2 additional attempts (an
all-429 script gives up after sleeping 5 then 10 seconds); any other
failure abandons the cloud path immediately only when it occurs on the
FIRST attempt; after a 429 retry, a later non-429 failure instead falls
through to the next attempt; and a 429 followed by a successful 200
waits 5 seconds and returns the attempt-2 content. -/
theorem C3_cloud_retry_amended :
    (∀ script : Nat → CloudEvent, (∀ n, isRate (script n) = true) →
      _call_bytez script = (none, [5, 10])) ∧
    (∀ script : Nat → CloudEvent, isRate (script 0) = false →
      evResult (script 0) = none → _call_bytez script = (none, [])) ∧
    (∀ (script : Nat → CloudEvent) (s : String), isRate (script 0) = true →
      evResult (script 1) = some s → _call_bytez script = (some s, [5])) ∧
    (∀ (script : Nat → CloudEvent) (s : String), isRate (script 0) = true →
      isRate (script 1) = false → evResult (script 1) = none →
      evResult (script 2) = some s → _call_bytez script = (some s, [5])) := by
  refine ⟨?_, ?_, ?_, ?_⟩
  · intro script h
    show bytezGo script [0, 1, 2] [] = (none, [5, 10])
    simp [bytezGo, h 0, h 1, h 2, max_retries]
  · intro script h0r h0e
    show bytezGo script [0, 1, 2] [] = (none, [])
    simp [bytezGo, h0r, h0e]
  · intro script s h0 h1e
    have h1r : isRate (script 1) = false := evResult_some_not_rate h1e
    show bytezGo script [0, 1, 2] [] = (some s, [5])
    simp [bytezGo, h0, h1r, h1e, max_retries]
  · intro script s h0 h1r h1e h2e
    have h2r : isRate (script 2) = false := evResult_some_not_rate h2e
    show bytezGo script [0, 1, 2] [] = (some s, [5])
    simp [bytezGo, h0, h1r, h1e, h2r, h2e, max_retries]

/-- Witness for C3's amended theorem at concrete scripts. -/
theorem C3_cloud_retry_amended_witness :
    _call_bytez (fun _ => .resp 429 none .otherOut) = (none, [5, 10]) ∧
    _call_bytez (fun _ => .timeout) = (none, []) ∧
    _call_bytez (fun n => if n = 0 then .resp 429 none .otherOut
      else .resp 200 none (.objContent "ok")) = (some "ok", [5]) ∧
    _call_bytez (fun n =>
      match n with
      | 0 => .resp 429 none .otherOut
      | 1 => .exc
      | _ => .resp 200 none (.objContent "ok2")) = (some "ok2", [5]) := by
  refine ⟨?_, ?_, ?_, ?_⟩
  · exact C3_cloud_retry_amended.1 _ (fun n => by decide)
  · exact C3_cloud_retry_amended.2.1 _ (by decide) (by decide)
  · exact C3_cloud_retry_amended.2.2.1 _ "ok" (by decide) (by decide)
  · exact C3_cloud_retry_amended.2.2.2 _ "ok2" (by decide) (by decide) (by decide)
      (by decide)

/-- C4, counterexample: with two user messages, the first asking to
analyze and the last asking to verify, the code's mock answers with the
complexity-analysis skeleton (first user message), while the spec's
last-user-message rule would give the verification skeleton. -/
theorem C4_mock_first_user_counterexample :
    _mock_response [⟨"user", "analyze this"⟩, ⟨"user", "verify quality"⟩] ≠
      mockSpecLastUser [⟨"user", "analyze this"⟩, ⟨"user", "verify quality"⟩] ∧
    _mock_response [⟨"user", "analyze this"⟩, ⟨"user", "verify quality"⟩] =
      mockAnalyzeJson ∧
    mockSpecLastUser [⟨"user", "analyze this"⟩, ⟨"user", "verify quality"⟩] =
      mockVerifyJson := by
  exact ⟨by decide, by decide, by decide⟩

/-- C4 (amended): when both backends fail, the response is the mock,
synthesized deterministically from the FIRST user message's content by
keyword sniffing over the lowered text: `analyze`/`code` gives the fixed
complexity-analysis JSON skeleton, and (when no earlier keyword group
matched) `verify`/`quality` gives the fixed verification skeleton; the
remaining groups (`context`/`patterns`, `documentation`/`write`,
`diagram`/`mermaid`, and the plain-text default) follow the same
if/elif chain in `mockFor`. -/
theorem C4_mock_keyword_amended :
    (∀ (cloud : Nat → CloudEvent) (ollama : OllamaEnv) (api_key : Bool)
        (model_id : String) (messages : List Msg),
      (api_key = true → (_call_bytez cloud).1 = none) →
      _call_ollama ollama model_id = none →
      generate api_key cloud ollama model_id messages =
        mockFor (firstUserContent messages)) ∧
    (∀ c : String, (hasSubS "analyze" (lowerS c) || hasSubS "code" (lowerS c)) = true →
      mockFor c = mockAnalyzeJson) ∧
    (∀ c : String, (hasSubS "analyze" (lowerS c) || hasSubS "code" (lowerS c)) = false →
      (hasSubS "context" (lowerS c) || hasSubS "patterns" (lowerS c)) = false →
      (hasSubS "documentation" (lowerS c) || hasSubS "write" (lowerS c)) = false →
      (hasSubS "verify" (lowerS c) || hasSubS "quality" (lowerS c)) = true →
      mockFor c = mockVerifyJson) := by
  refine ⟨?_, ?_, ?_⟩
  · intro cloud ollama api_key model_id messages hcb ho
    unfold generate
    have hscrut : (if api_key = true then (_call_bytez cloud).1 else none) = none := by
      by_cases hk : api_key = true
      · rw [if_pos hk]
        exact hcb hk
      · rw [if_neg hk]
    rw [hscrut, ho]
    rfl
  · intro c h1
    unfold mockFor
    rw [if_pos h1]
  · intro c h1 h2 h3 h4
    unfold mockFor
    rw [if_neg (by rw [h1]; exact Bool.false_ne_true), if_neg (by rw [h2]; exact Bool.false_ne_true),
      if_neg (by rw [h3]; exact Bool.false_ne_true), if_pos h4]

/-- Witness for C4's amended theorem at concrete inputs. -/
theorem C4_mock_keyword_amended_witness :
    generate true (fun _ => .timeout) ⟨none, none⟩ "m" [⟨"user", "verify quality"⟩] =
      mockVerifyJson ∧
    mockFor "analyze" = mockAnalyzeJson := by
  constructor
  · have h := C4_mock_keyword_amended.1 (fun _ => .timeout) ⟨none, none⟩ true "m"
      [⟨"user", "verify quality"⟩] (fun _ => by decide) (by decide)
    rw [h]
    exact C4_mock_keyword_amended.2.2 "verify quality" (by decide) (by decide)
      (by decide) (by decide)
  · exact C4_mock_keyword_amended.2.1 "analyze" (by decide)

/-! ## The Reader and Diagram agents -/

/-- C6: whenever parsing the extracted Reader response fails,
`ReaderAgent.analyze` returns exactly the fixed default record, whose
`documentation_needs` list is non-empty.  (When parsing succeeds the
parsed value is returned as-is; the try/except makes the whole function
total, so malformed output never raises.) -/
theorem C6_reader_default_on_parse_failure
    (jloads : List Char → Option JVal) (response : List Char)
    (h : jloads (reader_extract response) = none) :
    reader_analyze jloads response = reader_default ∧
    ∃ xs : List JVal, jGet reader_default "documentation_needs" = some (.arr xs) ∧
      xs ≠ [] := by
  constructor
  · unfold reader_analyze
    rw [h]
  · exact ⟨[.str "docstring", .str "parameters", .str "return_value", .str "examples"],
      rfl, by simp⟩

/-- Witness for C6 with the backend stubbed to return unparsable text. -/
theorem C6_reader_default_witness :
    reader_analyze (fun _ => none) "@@ not json @@".toList = reader_default ∧
    ∃ xs : List JVal, jGet reader_default "documentation_needs" = some (.arr xs) ∧
      xs ≠ [] :=
  C6_reader_default_on_parse_failure (fun _ => none) "@@ not json @@".toList rfl

theorem setMermaid_lookup {fields : List (String × JVal)} {v : JVal} (code : List Char)
    (h : lookupJ fields "mermaid_code" = some v) :
    lookupJ (setMermaid fields code) "mermaid_code" =
      some (.str (String.mk code)) := by
  induction fields with
  | nil => simp [lookupJ] at h
  | cons hd rest ih =>
    by_cases hk : (hd.1 == "mermaid_code") = true
    · simp [lookupJ, setMermaid, List.find?, hk]
    · have hkn : ¬ ((fun p : String × JVal => p.1 == "mermaid_code") hd = true) := hk
      unfold lookupJ at h ⊢
      rw [@List.find?_cons_of_neg _ (fun p : String × JVal => p.1 == "mermaid_code")
        hd rest hkn] at h
      unfold setMermaid
      rw [List.map_cons]
      have hhd : (if hd.1 == "mermaid_code" then (hd.1, JVal.str (String.mk code)) else hd)
          = hd := if_neg hk
      rw [hhd, @List.find?_cons_of_neg _ (fun p : String × JVal => p.1 == "mermaid_code")
        hd _ hkn]
      exact ih h

theorem fallback_mermaid_ok :
    ∃ s : String, jGet _fallback_diagram "mermaid_code" = some (.str s) ∧
      ( validate_mermaid_syntax s.toList).1 = true :=
  ⟨String.mk fallbackMermaid, rfl, by decide⟩

/-- C5: whenever `DiagramAgent.generate_diagram` returns a record, the
record's `mermaid_code` field is a string that passes
`validate_mermaid_syntax`: the cleaned code is returned only when it
validates, the repaired code only when its revalidation succeeds, and
otherwise the fixed fallback diagram (itself valid) is substituted. -/
theorem C5_diagram_always_valid (jloads : List Char → Option JVal)
    (response : List Char) (rec : JVal)
    (h : generate_diagram jloads response = .ok rec) :
    ∃ s : String, jGet rec "mermaid_code" = some (.str s) ∧
      ( validate_mermaid_syntax s.toList).1 = true := by
  unfold generate_diagram at h
  split at h
  · -- a parsed value was extracted
    split at h
    · -- it is truthy
      split at h
      · -- it is an object
        rename_i fields heqx htx
        simp only [] at h
        split at h
        · -- its mermaid_code entry is truthy
          split at h
          · -- the entry is a string
            rename_i s0 hE
            split at h
            · -- the cleaned code validates
              rename_i hv1
              injection h with hr
              rw [← hr]
              refine ⟨String.mk (clean_mermaid_code s0.toList), ?_, hv1⟩
              cases hlk : lookupJ fields "mermaid_code" with
              | none =>
                rw [hlk] at hE
                simp at hE
              | some mc0 => exact setMermaid_lookup _ hlk
            · -- clean failed; one repair cycle
              rename_i hv1
              split at h
              · rename_i hv2
                injection h with hr
                rw [← hr]
                refine ⟨String.mk (attempt_mermaid_repair (clean_mermaid_code s0.toList)
                  ( validate_mermaid_syntax (clean_mermaid_code s0.toList)).2), ?_, hv2⟩
                cases hlk : lookupJ fields "mermaid_code" with
                | none =>
                  rw [hlk] at hE
                  simp at hE
                | some mc0 => exact setMermaid_lookup _ hlk
              · injection h with hr
                rw [← hr]
                exact fallback_mermaid_ok
          · -- truthy non-string entry raises; no record is returned
            simp at h
        · -- falsy mermaid_code entry
          injection h with hr
          rw [← hr]
          exact fallback_mermaid_ok
      · -- truthy non-object raises; no record is returned
        simp at h
    · -- falsy parsed value
      injection h with hr
      rw [← hr]
      exact fallback_mermaid_ok
  · -- extraction failed entirely
    injection h with hr
    rw [← hr]
    exact fallback_mermaid_ok

/-- Witness for C5 on a response on which every extraction strategy
fails, so the fallback fires. -/
theorem C5_diagram_always_valid_witness :
    ∃ s : String, jGet _fallback_diagram "mermaid_code" = some (.str s) ∧
      ( validate_mermaid_syntax s.toList).1 = true :=
  C5_diagram_always_valid (fun _ => none) "not a diagram".toList _fallback_diagram rfl

/-! ## The repo-job orchestration loop (C2, C10) -/

theorem runAgentsGo_events (behavior : Nat → String → AgentOutcome) (idx : Nat)
    (agents : List String) :
    (runAgentsGo behavior idx agents).2.2 =
      agents.flatMap (fun a =>
        [.agentStart idx a, .agentDone idx a (outcomeStatus (behavior idx a))]) := by
  induction agents with
  | nil => rfl
  | cons a rest ih =>
    cases hb : behavior idx a with
    | ok out => simp [runAgentsGo, hb, ih, outcomeStatus]
    | err m => simp [runAgentsGo, hb, ih, outcomeStatus]

theorem mem_fileBlock {behavior : Nat → String → AgentOutcome} {j : Nat} {path : String}
    {e : PipeEvent} (he : e ∈ fileBlock behavior j path) : eventFile e = some j := by
  unfold fileBlock at he
  rcases List.mem_cons.mp he with h1 | h2
  · rw [h1]
    rfl
  · rcases List.mem_flatMap.mp h2 with ⟨a, _, hpair⟩
    rcases List.mem_cons.mp hpair with h3 | h4
    · rw [h3]
      rfl
    · rcases List.mem_cons.mp h4 with h5 | h6
      · rw [h5]
        rfl
      · simp at h6

theorem fileEvents_of_const {l : List PipeEvent} {j : Nat}
    (hl : ∀ e ∈ l, eventFile e = some j) (i : Nat) :
    fileEvents l i = if i = j then l else [] := by
  by_cases hij : i = j
  · rw [if_pos hij]
    exact List.filter_eq_self.mpr (fun e he => by simp [hl e he, hij])
  · rw [if_neg hij]
    apply List.filter_eq_nil_iff.mpr
    intro e he
    simp [hl e he]
    exact fun hc => hij hc.symm

theorem mem_processFilesGo_events {behavior : Nat → String → AgentOutcome}
    {e : PipeEvent} :
    ∀ {files : List FileSpec} {n : Nat}, e ∈ (processFilesGo behavior n files).2 →
      ∃ j, eventFile e = some j ∧ n ≤ j := by
  intro files
  induction files with
  | nil =>
    intro n he
    simp [processFilesGo] at he
  | cons f rest ih =>
    intro n he
    have he' : e ∈ (PipeEvent.fileStart n f.path ::
        (runAgentsGo behavior n agentsList).2.2) ++
        (processFilesGo behavior (n + 1) rest).2 := he
    rcases List.mem_append.mp he' with h1 | h2
    · have hb : e ∈ fileBlock behavior n f.path := by
        unfold fileBlock
        rw [← runAgentsGo_events]
        exact h1
      exact ⟨n, mem_fileBlock hb, le_refl n⟩
    · rcases ih h2 with ⟨j, hj, hnj⟩
      exact ⟨j, hj, Nat.le_of_succ_le hnj⟩

theorem processFilesGo_fileEvents (behavior : Nat → String → AgentOutcome) :
    ∀ (files : List FileSpec) (n i : Nat) (hi : i < files.length),
      fileEvents (processFilesGo behavior n files).2 (n + i) =
        fileBlock behavior (n + i) ((files.get ⟨i, hi⟩).path) := by
  intro files
  induction files with
  | nil =>
    intro n i hi
    simp at hi
  | cons f rest ih =>
    intro n i hi
    have hsplit : (processFilesGo behavior n (f :: rest)).2 =
        fileBlock behavior n f.path ++ (processFilesGo behavior (n + 1) rest).2 := by
      show (PipeEvent.fileStart n f.path :: (runAgentsGo behavior n agentsList).2.2) ++
          (processFilesGo behavior (n + 1) rest).2 = _
      unfold fileBlock
      rw [← runAgentsGo_events]
    rw [hsplit]
    unfold fileEvents
    rw [List.filter_append]
    cases i with
    | zero =>
      have h1 : List.filter (fun e => eventFile e == some (n + 0))
          (fileBlock behavior n f.path) = fileBlock behavior n f.path := by
        apply List.filter_eq_self.mpr
        intro e he
        simp [mem_fileBlock he]
      have h2 : List.filter (fun e => eventFile e == some (n + 0))
          ((processFilesGo behavior (n + 1) rest).2) = [] := by
        apply List.filter_eq_nil_iff.mpr
        intro e he
        rcases mem_processFilesGo_events he with ⟨j, hj, hnj⟩
        simp [hj]
        omega
      rw [h1, h2, List.append_nil]
      rfl
    | succ i2 =>
      have h1 : List.filter (fun e => eventFile e == some (n + (i2 + 1)))
          (fileBlock behavior n f.path) = [] := by
        apply List.filter_eq_nil_iff.mpr
        intro e he
        simp [mem_fileBlock he]
      have h2 := ih (n + 1) i2 (by simpa using hi)
      unfold fileEvents at h2
      have harith : n + 1 + i2 = n + (i2 + 1) := by omega
      rw [harith] at h2
      rw [h1, List.nil_append, h2]
      rfl

/-- C2: (a) for every oracle, file list and file index, the job trace
restricted to that file is exactly: the file-start broadcast, then for
each of the five agents in pipeline order an `agentStart` immediately
followed by its terminal `agentDone` (`completed` or `error`).  Hence
agent `k+1` starts only after agent `k` reached `completed` or `error`,
each agent starts exactly once (an errored agent is never retried), and
the next agent is invoked even after an error.  (b) In the concrete
3-file scenario where file 2's Writer throws, the job ends `completed`,
file 2's Writer sub-record is `error`, and files 1 and 3 have all five
agents `completed`. -/
theorem C2_sequential_agents_and_error_isolation :
    (∀ (behavior : Nat → String → AgentOutcome) (files : List FileSpec) (i : Nat)
        (hi : i < files.length),
      fileEvents (process_repo_documentation behavior files).2 i =
        fileBlock behavior i ((files.get ⟨i, hi⟩).path)) ∧
    ((process_repo_documentation writerFailBehavior threeFiles).1.status = "completed" ∧
     (process_repo_documentation writerFailBehavior threeFiles).1.file_results.map
        (fun fr => (fr.status, fr.agents.map (fun p => (p.1, p.2.status)))) =
      [("completed", [("reader", .completed), ("searcher", .completed),
         ("writer", .completed), ("verifier", .completed), ("diagram", .completed)]),
       ("completed", [("reader", .completed), ("searcher", .completed),
         ("writer", .error), ("verifier", .completed), ("diagram", .completed)]),
       ("completed", [("reader", .completed), ("searcher", .completed),
         ("writer", .completed), ("verifier", .completed), ("diagram", .completed)])]) := by
  constructor
  · intro behavior files i hi
    have htail : fileEvents (process_repo_documentation behavior files).2 i =
        fileEvents (processFilesGo behavior 0 files).2 i := by
      show fileEvents ((processFilesGo behavior 0 files).2 ++
        [PipeEvent.synth, PipeEvent.jobDone]) i = _
      unfold fileEvents
      rw [List.filter_append]
      have : List.filter (fun e => eventFile e == some i)
          [PipeEvent.synth, PipeEvent.jobDone] = [] := by
        simp [eventFile]
      rw [this, List.append_nil]
    rw [htail]
    have := processFilesGo_fileEvents behavior files 0 i hi
    simpa using this
  · exact ⟨rfl, rfl⟩

/-- Witness for C2 at the scenario inputs: the projection of the trace
onto file 2 (index 1), whose Writer errors. -/
theorem C2_sequential_agents_witness :
    fileEvents (process_repo_documentation writerFailBehavior threeFiles).2 1 =
      fileBlock writerFailBehavior 1 ((threeFiles.get ⟨1, by decide⟩).path) :=
  C2_sequential_agents_and_error_isolation.1 writerFailBehavior threeFiles 1 (by decide)

theorem processFilesGo_paths (behavior : Nat → String → AgentOutcome) :
    ∀ (files : List FileSpec) (n : Nat),
      (processFilesGo behavior n files).1.map (fun fr => fr.path) =
        files.map (fun f => f.path) := by
  intro files
  induction files with
  | nil =>
    intro n
    rfl
  | cons f rest ih =>
    intro n
    show FileResult.path ⟨f.path, f.content, "completed", _, _⟩ ::
        (processFilesGo behavior (n + 1) rest).1.map (fun fr => fr.path) = _
    rw [ih (n + 1)]
    rfl

/-- C10: when the fetched repository yields more than 50 processable
files, only the first 50 (in fetched order) are kept: the job exists,
its `total_files` is 50, and its file results are exactly the first 50
files' paths in order — later files never appear. -/
theorem C10_fifty_file_cap (behavior : Nat → String → AgentOutcome)
    (files : List FileSpec) (h : 50 < files.length) :
    ∃ job, start_repo_documentation behavior files = some job ∧
      job.total_files = 50 ∧
      job.file_results.map (fun fr => fr.path) =
        (files.take 50).map (fun f => f.path) := by
  have hne : ¬ files.isEmpty = true := by
    intro hc
    rw [List.isEmpty_iff.mp hc] at h
    simp at h
  have hlim : limitFiles files = files.take 50 := by
    unfold limitFiles MAX_FILES
    rw [if_pos h]
  refine ⟨(process_repo_documentation behavior (limitFiles files)).1, ?_, ?_, ?_⟩
  · unfold start_repo_documentation
    rw [if_neg hne]
  · show (limitFiles files).length = 50
    rw [hlim, List.length_take]
    omega
  · show (processFilesGo behavior 0 (limitFiles files)).1.map (fun fr => fr.path) = _
    rw [processFilesGo_paths, hlim]

/-- Witness for C10 on a 60-file list. -/
theorem C10_fifty_file_cap_witness :
    ∃ job, start_repo_documentation writerFailBehavior
        (List.replicate 60 (⟨"f.py", "x"⟩ : FileSpec)) = some job ∧
      job.total_files = 50 ∧
      job.file_results.map (fun fr => fr.path) =
        ((List.replicate 60 (⟨"f.py", "x"⟩ : FileSpec)).take 50).map (fun f => f.path) :=
  C10_fifty_file_cap writerFailBehavior _ (by decide)

end DocAgent
